import Mathlib

/-!
# The Liverpool command processor: `Liverpool::ProcessCmdList`

A shallow embedding of `src/video_core/amdgpu/liverpool.cpp`.

* The command buffer `u32* cmdbuf` is a word-addressed store `Nat → Nat`; the
  cursor `header` is a word index into it (index `0` is `cmdbuf` itself).  A
  pointer can be dereferenced past `size_in_bytes`, and so can the store.
* `regs.reg_array` is a word-addressed store `Nat → Nat`; an index at or beyond
  `NumRegs` stands for the memory that follows the array.
* Host memory, the target of the `EventWriteEop` write-back, is a byte-addressed
  store `Nat → Nat`, little endian.  The command buffer, the register file and
  host memory are taken to be disjoint.
* `eop_callback` is external code.  A call is recorded in the trace of effects,
  together with the host memory it is made on; the callback itself is taken not
  to change the register file or host memory.
* `UNREACHABLE` / `UNREACHABLE_MSG` stop processing: the outcome is a fault that
  carries the state reached so far.
* The `while` loop is driven by a fuel argument.
* The declarations of `pm4_cmds.h` and `liverpool.h` are not part of the source
  file; the field accessors and the register layout are parameters
  (`PM4Cmds`, `RegsLayout`).
-/

namespace AmdGpu

/-- Truncation to the C++ type `u32`. -/
def u32 (x : Nat) : Nat := x % 2 ^ 32

/-- The opcodes of `PM4ItOpcode` that `ProcessCmdList` has a `case` for; every
other value of the enumeration is `Other raw`, with `raw` its `u32` value. -/
inductive PM4ItOpcode where
  | Nop
  | SetContextReg
  | SetShReg
  | SetUconfigReg
  | IndexType
  | DrawIndex2
  | DrawIndexAuto
  | DispatchDirect
  | EventWriteEos
  | EventWriteEop
  | DmaData
  | WriteData
  | AcquireMem
  | WaitRegMem
  | Other (raw : Nat)
  deriving DecidableEq, Repr

/-- The values of `DataSelect` that the write-back switch has a `case` for. -/
inductive DataSelect where
  | Data32Low
  | Data64
  | Other (raw : Nat)
  deriving DecidableEq, Repr

/-- The values of `InterruptSelect` that the interrupt switch has a `case` for. -/
inductive InterruptSelect where
  | None
  | IrqWhenWriteConfirm
  | Other (raw : Nat)
  deriving DecidableEq, Repr

/-- The field accessors that `ProcessCmdList` uses from `pm4_cmds.h`.  Header
accessors take the header word; packet accessors take the packet as a view
`i ↦ word i of the packet` (word `0` is the header). -/
structure PM4Cmds where
  /-- The field `header->type`. -/
  type : Nat → Nat
  /-- The field `header->type3.opcode`. -/
  opcode : Nat → PM4ItOpcode
  /-- The method `header->type3.NumWords()`. -/
  NumWords : Nat → Nat
  /-- The field `PM4CmdSetData::reg_offset`. -/
  reg_offset : (Nat → Nat) → Nat
  /-- The field `PM4CmdDrawIndexType::raw`. -/
  index_type_raw : (Nat → Nat) → Nat
  /-- The field `PM4CmdDrawIndex2::max_size`. -/
  max_size : (Nat → Nat) → Nat
  /-- The field `PM4CmdDrawIndex2::index_base_lo`. -/
  index_base_lo : (Nat → Nat) → Nat
  /-- The field `PM4CmdDrawIndex2::index_base_hi`. -/
  index_base_hi : (Nat → Nat) → Nat
  /-- The field `PM4CmdDrawIndex2::index_count`. -/
  index_count : (Nat → Nat) → Nat
  /-- The field `PM4CmdDrawIndex2::draw_initiator`. -/
  draw_initiator : (Nat → Nat) → Nat
  /-- The field `PM4CmdDrawIndexAuto::index_count`. -/
  auto_index_count : (Nat → Nat) → Nat
  /-- The field `PM4CmdDrawIndexAuto::draw_initiator`. -/
  auto_draw_initiator : (Nat → Nat) → Nat
  /-- The field `PM4CmdEventWriteEop::int_sel`. -/
  int_sel : (Nat → Nat) → InterruptSelect
  /-- The field `PM4CmdEventWriteEop::data_sel`. -/
  data_sel : (Nat → Nat) → DataSelect
  /-- The method `PM4CmdEventWriteEop::Address()`, as a byte address. -/
  Address : (Nat → Nat) → Nat
  /-- The method `PM4CmdEventWriteEop::DataDWord()`. -/
  DataDWord : (Nat → Nat) → Nat
  /-- The method `PM4CmdEventWriteEop::DataQWord()`. -/
  DataQWord : (Nat → Nat) → Nat

/-- The layout of `Liverpool::Regs` (from `liverpool.h`): the region bases, the
array size, and the word index in `reg_array` of each named register that
`ProcessCmdList` assigns.  `base_addr_hi` is a bit field of `hi_bits` bits at bit
`hi_pos` of the word `index_base_hi_word`. -/
structure RegsLayout where
  NumRegs : Nat
  ContextRegWordOffset : Nat
  ShRegWordOffset : Nat
  UconfigRegWordOffset : Nat
  max_index_size : Nat
  index_base_lo_word : Nat
  index_base_hi_word : Nat
  hi_pos : Nat
  hi_bits : Nat
  num_indices : Nat
  draw_initiator : Nat
  index_buffer_type : Nat

/-- The named registers of a layout are distinct members of `Regs`: they occupy
pairwise different words. -/
def RegsLayout.Distinct (L : RegsLayout) : Prop :=
  [L.max_index_size, L.index_base_lo_word, L.index_base_hi_word, L.num_indices,
    L.draw_initiator, L.index_buffer_type].Nodup

instance (L : RegsLayout) : Decidable L.Distinct := by
  unfold RegsLayout.Distinct; infer_instance

/-- An externally observable effect of `ProcessCmdList`. -/
inductive Event where
  /-- A 32-bit store of `val` to host address `addr`. -/
  | Store32 (addr val : Nat)
  /-- A 64-bit store of `val` to host address `addr`. -/
  | Store64 (addr val : Nat)
  /-- A call of `eop_callback()`; `mem` is host memory at the moment of the call. -/
  | EopCallback (mem : Nat → Nat)
  /-- A call of `rasterizer->DrawIndex()`.  Both calls are commented out in the
  source, so no handler emits this event. -/
  | DrawIndex

/-- Whether an event is a call of `eop_callback()`. -/
def Event.isEopCallback : Event → Bool
  | .EopCallback _ => true
  | _ => false

/-- Whether an event is a call of `rasterizer->DrawIndex()`. -/
def Event.isDrawIndex : Event → Bool
  | .DrawIndex => true
  | _ => false

/-- The state `ProcessCmdList` works on: the register file `regs.reg_array`,
whether `eop_callback` holds a callable, host memory, and the trace of effects
so far (oldest first). -/
structure State where
  regs : Nat → Nat
  eop_callback : Bool
  mem : Nat → Nat
  trace : List Event

/-- The ways `ProcessCmdList` aborts. -/
inductive Fault where
  /-- `UNREACHABLE_MSG("Invalid PM4 type {}", type)`. -/
  | InvalidPM4Type (type : Nat)
  /-- `UNREACHABLE_MSG("Unknown PM4 type 3 opcode {:#x} with count {}", ...)`. -/
  | UnknownOpcode (opcode count : Nat)
  /-- `UNREACHABLE()` in the `default` of the `data_sel` switch. -/
  | InvalidDataSelect
  /-- `UNREACHABLE()` in the `default` of the `irq_sel` switch. -/
  | InvalidInterruptSelect
  /-- `UNREACHABLE_MSG("EOP callback is not registered")`. -/
  | MissingInterruptSink
  deriving DecidableEq, Repr

/-- The result of one opcode handler. -/
inductive Handled where
  | ok (s : State)
  | fault (f : Fault) (s : State)

/-- The result of one iteration of the `while` loop. -/
inductive StepResult where
  | next (s : State) (next_header : Nat)
  | fault (f : Fault) (s : State)

/-- The result of `ProcessCmdList`: the loop ended with the given state and
`processed_cmd_size`, or it aborted with the state reached so far, or the fuel
ran out while `processed_cmd_size < size_in_bytes` still held. -/
inductive Outcome where
  | done (s : State) (processed_cmd_size : Nat)
  | fault (f : Fault) (s : State)
  | outOfFuel (s : State)

/-- The packet whose header is at word `header`, as a view: word `i` of the packet
is word `header + i` of the command buffer. -/
def packetAt (cmdbuf : Nat → Nat) (header : Nat) : Nat → Nat :=
  fun i => cmdbuf (header + i)

/-- `std::memcpy(&regs.reg_array[dst], cmdbuf + src, n * sizeof(u32))`. -/
def memcpyWords (regs : Nat → Nat) (dst : Nat) (cmdbuf : Nat → Nat) (src n : Nat) :
    Nat → Nat :=
  fun i => if dst ≤ i ∧ i < dst + n then cmdbuf (src + (i - dst)) else regs i

/-- The store `*reinterpret_cast<u32*>(addr) = val`: four bytes, little endian. -/
def store32 (mem : Nat → Nat) (addr val : Nat) : Nat → Nat :=
  fun a => if addr ≤ a ∧ a < addr + 4 then val / 256 ^ (a - addr) % 256 else mem a

/-- The store `*reinterpret_cast<u64*>(addr) = val`: eight bytes, little endian. -/
def store64 (mem : Nat → Nat) (addr val : Nat) : Nat → Nat :=
  fun a => if addr ≤ a ∧ a < addr + 8 then val / 256 ^ (a - addr) % 256 else mem a

/-- The value of the `n` bytes at `addr`, little endian. -/
def loadBytes (mem : Nat → Nat) (addr : Nat) : Nat → Nat
  | 0 => 0
  | n + 1 => mem addr + 256 * loadBytes mem (addr + 1) n

/-- The 32-bit value at `addr`. -/
def load32 (mem : Nat → Nat) (addr : Nat) : Nat := loadBytes mem addr 4

/-- The 64-bit value at `addr`. -/
def load64 (mem : Nat → Nat) (addr : Nat) : Nat := loadBytes mem addr 8

/-- Modelled from the spec: `BitField::Assign` (`common/bit_field.h` is not part
of the source file) for a field of `bits` bits at bit `pos` of a storage word:
the field takes the low `bits` bits of `value`, the other bits of the word stay. -/
def bitFieldAssign (pos bits storage value : Nat) : Nat :=
  storage / 2 ^ (pos + bits) * 2 ^ (pos + bits) + value % 2 ^ bits * 2 ^ pos + storage % 2 ^ pos

/-- Modelled from the spec: the value of a bit field of `bits` bits at bit `pos`
of a storage word. -/
def bitFieldGet (pos bits storage : Nat) : Nat :=
  storage / 2 ^ pos % 2 ^ bits

/-- Assignment to one named register. -/
def setReg (regs : Nat → Nat) (idx val : Nat) : Nat → Nat :=
  fun i => if i = idx then val else regs i

/-- Modelled from the spec: the index-buffer base address, kept as a low and a
high half in `regs.index_base_address` (declared in `liverpool.h`, which is not
part of the source file), reassembled to a 64-bit value:
`base_addr_lo | u64(base_addr_hi) << 32`. -/
def indexBaseAddress (L : RegsLayout) (regs : Nat → Nat) : Nat :=
  regs L.index_base_lo_word |||
    (bitFieldGet L.hi_pos L.hi_bits (regs L.index_base_hi_word) <<< 32)

/-- The write-back switch of the `EventWriteEop` case (`switch (data_sel)`). -/
def eopWriteBack (P : PM4Cmds) (pkt : Nat → Nat) (s : State) : Handled :=
  match P.data_sel pkt with
  | .Data32Low =>
    .ok { s with
      mem := store32 s.mem (P.Address pkt) (P.DataDWord pkt)
      trace := s.trace ++ [.Store32 (P.Address pkt) (P.DataDWord pkt)] }
  | .Data64 =>
    .ok { s with
      mem := store64 s.mem (P.Address pkt) (P.DataQWord pkt)
      trace := s.trace ++ [.Store64 (P.Address pkt) (P.DataQWord pkt)] }
  | .Other _ => .fault .InvalidDataSelect s

/-- The interrupt switch of the `EventWriteEop` case (`switch (irq_sel)`). -/
def eopInterrupt (P : PM4Cmds) (pkt : Nat → Nat) (s : State) : Handled :=
  match P.int_sel pkt with
  | .None => .ok s
  | .IrqWhenWriteConfirm =>
    if s.eop_callback then .ok { s with trace := s.trace ++ [.EopCallback s.mem] }
    else .fault .MissingInterruptSink s
  | .Other _ => .fault .InvalidInterruptSelect s

/-- The `EventWriteEop` case: the write-back, then the interrupt. -/
def handleEventWriteEop (P : PM4Cmds) (pkt : Nat → Nat) (s : State) : Handled :=
  match eopWriteBack P pkt s with
  | .ok s1 => eopInterrupt P pkt s1
  | .fault f s1 => .fault f s1

/-- The `DrawIndex2` case. -/
def handleDrawIndex2 (L : RegsLayout) (P : PM4Cmds) (pkt : Nat → Nat) (regs : Nat → Nat) :
    Nat → Nat :=
  let r1 := setReg regs L.max_index_size (P.max_size pkt)
  let r2 := setReg r1 L.index_base_lo_word (P.index_base_lo pkt)
  let r3 := setReg r2 L.index_base_hi_word
    (bitFieldAssign L.hi_pos L.hi_bits (r2 L.index_base_hi_word) (P.index_base_hi pkt))
  let r4 := setReg r3 L.num_indices (P.index_count pkt)
  setReg r4 L.draw_initiator (P.draw_initiator pkt)

/-- The `DrawIndexAuto` case. -/
def handleDrawIndexAuto (L : RegsLayout) (P : PM4Cmds) (pkt : Nat → Nat) (regs : Nat → Nat) :
    Nat → Nat :=
  let r1 := setReg regs L.num_indices (P.auto_index_count pkt)
  setReg r1 L.draw_initiator (P.auto_draw_initiator pkt)

/-- The `switch (opcode)` of the type-3 case, for the packet whose header is at
word `header`, with `count = header->type3.NumWords()`. -/
def execOpcode (L : RegsLayout) (P : PM4Cmds) (cmdbuf : Nat → Nat) (header : Nat)
    (opcode : PM4ItOpcode) (count : Nat) (s : State) : Handled :=
  let pkt : Nat → Nat := packetAt cmdbuf header
  match opcode with
  | .Nop => .ok s
  | .SetContextReg =>
    .ok { s with regs := memcpyWords s.regs (L.ContextRegWordOffset + P.reg_offset pkt)
                  cmdbuf (header + 2) (u32 (count + 2 ^ 32 - 1)) }
  | .SetShReg =>
    .ok { s with regs := memcpyWords s.regs (L.ShRegWordOffset + P.reg_offset pkt)
                  cmdbuf (header + 2) (u32 (count + 2 ^ 32 - 1)) }
  | .SetUconfigReg =>
    .ok { s with regs := memcpyWords s.regs (L.UconfigRegWordOffset + P.reg_offset pkt)
                  cmdbuf (header + 2) (u32 (count + 2 ^ 32 - 1)) }
  | .IndexType =>
    .ok { s with regs := setReg s.regs L.index_buffer_type (P.index_type_raw pkt) }
  | .DrawIndex2 => .ok { s with regs := handleDrawIndex2 L P pkt s.regs }
  | .DrawIndexAuto => .ok { s with regs := handleDrawIndexAuto L P pkt s.regs }
  | .DispatchDirect => .ok s
  | .EventWriteEos => .ok s
  | .EventWriteEop => handleEventWriteEop P pkt s
  | .DmaData => .ok s
  | .WriteData => .ok s
  | .AcquireMem => .ok s
  | .WaitRegMem => .ok s
  | .Other raw => .fault (.UnknownOpcode raw count) s

/-- One iteration of the `while` loop: the `switch (type)` at the cursor
`header`, giving the new state and `next_header`, or a fault. -/
def step (L : RegsLayout) (P : PM4Cmds) (cmdbuf : Nat → Nat) (header : Nat) (s : State) :
    StepResult :=
  let type := u32 (P.type (cmdbuf header))
  if type = 3 then
    let opcode := P.opcode (cmdbuf header)
    let count := u32 (P.NumWords (cmdbuf header))
    match execOpcode L P cmdbuf header opcode count s with
    | .ok s1 => .next s1 (header + count + 1)
    | .fault f s1 => .fault f s1
  else .fault (.InvalidPM4Type type) s

/-- The `while (processed_cmd_size < size_in_bytes)` loop, from the cursor
`header` and the running total `processed_cmd_size`. -/
def processLoop (L : RegsLayout) (P : PM4Cmds) (cmdbuf : Nat → Nat) (size_in_bytes : Nat) :
    Nat → Nat → Nat → State → Outcome
  | 0, _, processed_cmd_size, s =>
    if processed_cmd_size < size_in_bytes then .outOfFuel s else .done s processed_cmd_size
  | fuel + 1, header, processed_cmd_size, s =>
    if processed_cmd_size < size_in_bytes then
      match step L P cmdbuf header s with
      | .next s1 next_header =>
        processLoop L P cmdbuf size_in_bytes fuel next_header
          (u32 (processed_cmd_size + (next_header - header) * 4)) s1
      | .fault f s1 => .fault f s1
    else .done s processed_cmd_size

/-- `Liverpool::ProcessCmdList(cmdbuf, size_in_bytes)`, with at most `fuel`
iterations of the loop. -/
def ProcessCmdList (L : RegsLayout) (P : PM4Cmds) (fuel : Nat) (cmdbuf : Nat → Nat)
    (size_in_bytes : Nat) (s : State) : Outcome :=
  processLoop L P cmdbuf size_in_bytes fuel 0 0 s

/-! ## Well-formed streams -/

/-- Whether the opcode has a `case` of its own in `switch (opcode)`. -/
def PM4ItOpcode.isRecognized : PM4ItOpcode → Bool
  | .Other _ => false
  | _ => true

/-- Whether the `DataSelect` value has a `case` of its own. -/
def DataSelect.isValid : DataSelect → Bool
  | .Other _ => false
  | _ => true

/-- Whether the `InterruptSelect` value has a `case` of its own. -/
def InterruptSelect.isValid : InterruptSelect → Bool
  | .Other _ => false
  | _ => true

/-- The packet at `header` is of type 3, has a recognized opcode and, when it is
an `EventWriteEop`, valid `DataSelect` and `InterruptSelect` values. -/
def packetWellFormed (P : PM4Cmds) (cmdbuf : Nat → Nat) (header : Nat) : Bool :=
  let pkt : Nat → Nat := packetAt cmdbuf header
  decide (u32 (P.type (cmdbuf header)) = 3) &&
    (P.opcode (cmdbuf header)).isRecognized &&
    (decide (P.opcode (cmdbuf header) ≠ .EventWriteEop) ||
      ((P.data_sel pkt).isValid && (P.int_sel pkt).isValid))

/-- The packet at `header` is an `EventWriteEop` that selects
`IrqWhenWriteConfirm`. -/
def packetRequestsIrq (P : PM4Cmds) (cmdbuf : Nat → Nat) (header : Nat) : Bool :=
  decide (P.opcode (cmdbuf header) = .EventWriteEop) &&
    decide (P.int_sel (packetAt cmdbuf header) = .IrqWhenWriteConfirm)

/-- The `n` packets that start at word `header` are well-formed and their sizes
`(count + 1) * 4` add up to exactly `bytes`. -/
def wellFormedStream (P : PM4Cmds) (cmdbuf : Nat → Nat) : Nat → Nat → Nat → Bool
  | 0, _, bytes => decide (bytes = 0)
  | n + 1, header, bytes =>
    packetWellFormed P cmdbuf header &&
      decide ((u32 (P.NumWords (cmdbuf header)) + 1) * 4 ≤ bytes) &&
      wellFormedStream P cmdbuf n (header + u32 (P.NumWords (cmdbuf header)) + 1)
        (bytes - (u32 (P.NumWords (cmdbuf header)) + 1) * 4)

/-- Some packet among the `n` packets that start at word `header` is an
`EventWriteEop` that selects `IrqWhenWriteConfirm`. -/
def streamRequestsIrq (P : PM4Cmds) (cmdbuf : Nat → Nat) : Nat → Nat → Bool
  | 0, _ => false
  | n + 1, header =>
    packetRequestsIrq P cmdbuf header ||
      streamRequestsIrq P cmdbuf n (header + u32 (P.NumWords (cmdbuf header)) + 1)

/-- The cursor after `n` packets, starting from the packet at word `header`. -/
def streamEnd (P : PM4Cmds) (cmdbuf : Nat → Nat) : Nat → Nat → Nat
  | 0, header => header
  | n + 1, header => streamEnd P cmdbuf n (header + u32 (P.NumWords (cmdbuf header)) + 1)

/-- The region base that a register-block-write opcode adds to `reg_offset`. -/
def regionBase (L : RegsLayout) : PM4ItOpcode → Option Nat
  | .SetContextReg => some L.ContextRegWordOffset
  | .SetShReg => some L.ShRegWordOffset
  | .SetUconfigReg => some L.UconfigRegWordOffset
  | _ => none

/-- The state a handler result carries. -/
def Handled.state : Handled → State
  | .ok s => s
  | .fault _ s => s

/-- The fault of a handler result, if it is one. -/
def Handled.fault? : Handled → Option Fault
  | .ok _ => none
  | .fault f _ => some f

/-- The state the result of an iteration carries. -/
def StepResult.state : StepResult → State
  | .next s _ => s
  | .fault _ s => s

/-- The fault of the result of an iteration, if it is one. -/
def StepResult.fault? : StepResult → Option Fault
  | .next _ _ => none
  | .fault f _ => some f

/-- The number of calls of `eop_callback()` in a trace. -/
def callbackCount (trace : List Event) : Nat :=
  trace.countP Event.isEopCallback

/-- The fault of an outcome, if it is one. -/
def Outcome.fault? : Outcome → Option Fault
  | .fault f _ => some f
  | _ => none

/-- The state an outcome carries. -/
def Outcome.state : Outcome → State
  | .done s _ => s
  | .fault _ s => s
  | .outOfFuel s => s

/-! ## A sample instance of the declarations

The results below hold for every `PM4Cmds` and every `RegsLayout`.  To evaluate
them on concrete streams they are instantiated at the following wire format and
register layout.  The spec fixes only the shape of the format (the high bits of
the header select the packet family, sub-fields give the opcode and the payload
word count, payload words follow the header); the bit positions and the
numberings are one choice among those the spec allows. -/

/-- Modelled from the spec: the enumeration `PM4ItOpcode` is declared in
`pm4_cmds.h`, which is not part of the source file; this is a sample numbering of
the opcodes that have a `case`, every other number being `Other`. -/
def sampleOpcode (raw : Nat) : PM4ItOpcode :=
  if raw = 0x10 then .Nop
  else if raw = 0x69 then .SetContextReg
  else if raw = 0x76 then .SetShReg
  else if raw = 0x79 then .SetUconfigReg
  else if raw = 0x2A then .IndexType
  else if raw = 0x27 then .DrawIndex2
  else if raw = 0x2D then .DrawIndexAuto
  else if raw = 0x15 then .DispatchDirect
  else if raw = 0x48 then .EventWriteEos
  else if raw = 0x47 then .EventWriteEop
  else if raw = 0x50 then .DmaData
  else if raw = 0x37 then .WriteData
  else if raw = 0x58 then .AcquireMem
  else if raw = 0x3C then .WaitRegMem
  else .Other raw

/-- Modelled from the spec: the enumeration `DataSelect` is declared in
`pm4_cmds.h`, which is not part of the source file; this is a sample numbering
of its two handled values, every other number being `Other`. -/
def sampleDataSelect (raw : Nat) : DataSelect :=
  if raw = 1 then .Data32Low else if raw = 2 then .Data64 else .Other raw

/-- Modelled from the spec: the enumeration `InterruptSelect` is declared in
`pm4_cmds.h`, which is not part of the source file; this is a sample numbering
of its two handled values, every other number being `Other`. -/
def sampleInterruptSelect (raw : Nat) : InterruptSelect :=
  if raw = 0 then .None else if raw = 2 then .IrqWhenWriteConfirm else .Other raw

/-- Modelled from the spec: the packet structures are declared in `pm4_cmds.h`,
which is not part of the source file; this is a sample wire format.  The header
word has the packet family in bits 30-31, the payload word count in bits 16-29
and the opcode in bits 8-15; the packet structures list their fields word by word
after the header, and `EventWriteEop` packs the high address bits and both
selectors in its third payload word. -/
def samplePM4 : PM4Cmds where
  type h := h / 2 ^ 30 % 4
  opcode h := sampleOpcode (h / 2 ^ 8 % 256)
  NumWords h := h / 2 ^ 16 % 2 ^ 14
  reg_offset pkt := pkt 1 % 2 ^ 16
  index_type_raw pkt := pkt 1
  max_size pkt := pkt 1
  index_base_lo pkt := pkt 2
  index_base_hi pkt := pkt 3
  index_count pkt := pkt 4
  draw_initiator pkt := pkt 5
  auto_index_count pkt := pkt 1
  auto_draw_initiator pkt := pkt 2
  int_sel pkt := sampleInterruptSelect (pkt 3 / 2 ^ 24 % 4)
  data_sel pkt := sampleDataSelect (pkt 3 / 2 ^ 29 % 8)
  Address pkt := pkt 2 + pkt 3 % 2 ^ 16 * 2 ^ 32
  DataDWord pkt := pkt 4
  DataQWord pkt := pkt 4 + pkt 5 * 2 ^ 32

/-- Modelled from the spec: `Liverpool::Regs` and the region bases are declared
in `liverpool.h`, which is not part of the source file; this is a sample layout
with three regions and six distinct named registers. -/
def sampleLayout : RegsLayout where
  NumRegs := 0xD000
  ContextRegWordOffset := 0xA000
  ShRegWordOffset := 0x2C00
  UconfigRegWordOffset := 0xC000
  max_index_size := 0xA29E
  index_base_lo_word := 0xA1FA
  index_base_hi_word := 0xA1F9
  hi_pos := 0
  hi_bits := 8
  num_indices := 0xC24C
  draw_initiator := 0xA1FC
  index_buffer_type := 0xC243

/-- A type-3 header word of the sample wire format. -/
def sampleHeader (opcodeRaw count : Nat) : Nat :=
  3 * 2 ^ 30 + count * 2 ^ 16 + opcodeRaw * 2 ^ 8

/-- The third payload word of a sample `EventWriteEop` packet. -/
def sampleDataControl (addressHi intSel dataSel : Nat) : Nat :=
  addressHi + intSel * 2 ^ 24 + dataSel * 2 ^ 29

/-- A command buffer that holds the given words and zeros after them. -/
def bufferOf (words : List Nat) : Nat → Nat := fun i => words.getD i 0

/-- A state with every register and every byte of memory zero and an empty trace. -/
def zeroState (eop_callback : Bool) : State where
  regs := fun _ => 0
  eop_callback := eop_callback
  mem := fun _ => 0
  trace := []

/-- The number of calls of `rasterizer->DrawIndex()` in a trace. -/
def drawCount (trace : List Event) : Nat :=
  trace.countP Event.isDrawIndex

/-- The cursors at which the loop body runs, in order: the word indices of the
command buffer at which a packet header is fetched. -/
def headersFetched (L : RegsLayout) (P : PM4Cmds) (cmdbuf : Nat → Nat) (size_in_bytes : Nat) :
    Nat → Nat → Nat → State → List Nat
  | 0, _, _, _ => []
  | fuel + 1, header, processed_cmd_size, s =>
    if processed_cmd_size < size_in_bytes then
      header ::
        (match step L P cmdbuf header s with
        | .next s1 next_header =>
          headersFetched L P cmdbuf size_in_bytes fuel next_header
            (u32 (processed_cmd_size + (next_header - header) * 4)) s1
        | .fault _ _ => [])
    else []

end AmdGpu

/-! ## Theorems -/

namespace AmdGpu

/-- A step that does not fault moves the cursor by `NumWords() + 1` words. -/
theorem step_next_header {L : RegsLayout} {P : PM4Cmds} {cmdbuf : Nat → Nat} {header : Nat}
    {s s1 : State} {next : Nat} (h : step L P cmdbuf header s = .next s1 next) :
    next = header + u32 (P.NumWords (cmdbuf header)) + 1 := by
  unfold step at h
  simp only at h
  split at h
  · split at h
    · injection h with _ h2
      exact h2.symm
    · cases h
  · cases h

/-- The write-back keeps the register file and the callback registration. -/
theorem eopWriteBack_ok_frame {P : PM4Cmds} {pkt : Nat → Nat} {s s1 : State}
    (h : eopWriteBack P pkt s = .ok s1) :
    s1.regs = s.regs ∧ s1.eop_callback = s.eop_callback := by
  unfold eopWriteBack at h
  split at h
  · injection h with h; subst h; exact ⟨rfl, rfl⟩
  · injection h with h; subst h; exact ⟨rfl, rfl⟩
  · cases h

/-- On a well-formed packet whose interrupt request, if any, finds a callback,
the opcode handler does not fault and keeps the callback registration. -/
theorem execOpcode_ok_of_wellFormed (L : RegsLayout) (P : PM4Cmds) (cmdbuf : Nat → Nat)
    (header count : Nat) (s : State)
    (hwf : packetWellFormed P cmdbuf header = true)
    (hirq : packetRequestsIrq P cmdbuf header = true → s.eop_callback = true) :
    ∃ s1, execOpcode L P cmdbuf header (P.opcode (cmdbuf header)) count s = .ok s1 ∧
      s1.eop_callback = s.eop_callback := by
  simp only [packetWellFormed, Bool.and_eq_true, Bool.or_eq_true, decide_eq_true_eq] at hwf
  obtain ⟨⟨_, hrec⟩, hsel⟩ := hwf
  simp only [packetRequestsIrq, Bool.and_eq_true, decide_eq_true_eq] at hirq
  cases hop : P.opcode (cmdbuf header) with
  | EventWriteEop =>
    rw [hop] at hsel hirq
    rcases hsel with hsel | ⟨hd, hi⟩
    · exact absurd rfl hsel
    · simp only [execOpcode, handleEventWriteEop, eopWriteBack, eopInterrupt]
      cases hds : P.data_sel (packetAt cmdbuf header) with
      | Other r => rw [hds] at hd; cases hd
      | Data32Low =>
        cases his : P.int_sel (packetAt cmdbuf header) with
        | Other r => rw [his] at hi; cases hi
        | None => exact ⟨_, rfl, rfl⟩
        | IrqWhenWriteConfirm =>
          have hcb := hirq ⟨rfl, his⟩
          simp [hcb]
      | Data64 =>
        cases his : P.int_sel (packetAt cmdbuf header) with
        | Other r => rw [his] at hi; cases hi
        | None => exact ⟨_, rfl, rfl⟩
        | IrqWhenWriteConfirm =>
          have hcb := hirq ⟨rfl, his⟩
          simp [hcb]
  | Other r => rw [hop] at hrec; cases hrec
  | _ => exact ⟨_, rfl, rfl⟩

/-- On a well-formed packet whose interrupt request, if any, finds a callback,
one iteration of the loop does not fault. -/
theorem step_ok_of_wellFormed (L : RegsLayout) (P : PM4Cmds) (cmdbuf : Nat → Nat)
    (header : Nat) (s : State)
    (hwf : packetWellFormed P cmdbuf header = true)
    (hirq : packetRequestsIrq P cmdbuf header = true → s.eop_callback = true) :
    ∃ s1, step L P cmdbuf header s =
        .next s1 (header + u32 (P.NumWords (cmdbuf header)) + 1) ∧
      s1.eop_callback = s.eop_callback := by
  obtain ⟨s1, h1, h2⟩ := execOpcode_ok_of_wellFormed L P cmdbuf header
    (u32 (P.NumWords (cmdbuf header))) s hwf hirq
  have htype : u32 (P.type (cmdbuf header)) = 3 := by
    simp only [packetWellFormed, Bool.and_eq_true, decide_eq_true_eq] at hwf
    exact hwf.1.1
  refine ⟨s1, ?_, h2⟩
  unfold step
  simp only [htype, if_true, h1]

/-- The loop on a well-formed stream: it ends normally with
`processed_cmd_size = size_in_bytes`. -/
theorem processLoop_wellFormed (L : RegsLayout) (P : PM4Cmds) (cmdbuf : Nat → Nat)
    (size : Nat) (hsize : size < 2 ^ 32) :
    ∀ (n fuel header processed : Nat) (s : State), n ≤ fuel → processed ≤ size →
      wellFormedStream P cmdbuf n header (size - processed) = true →
      (streamRequestsIrq P cmdbuf n header = true → s.eop_callback = true) →
      ∃ s1, processLoop L P cmdbuf size fuel header processed s = .done s1 size := by
  intro n
  induction n with
  | zero =>
    intro fuel header processed s _ hle hwf _
    simp only [wellFormedStream, decide_eq_true_eq] at hwf
    have hp : processed = size := by omega
    subst hp
    cases fuel <;> exact ⟨s, by simp [processLoop]⟩
  | succ n ih =>
    intro fuel header processed s hfuel hle hwf hcb
    simp only [wellFormedStream, Bool.and_eq_true, decide_eq_true_eq] at hwf
    obtain ⟨⟨hpkt, hfit⟩, hrest⟩ := hwf
    simp only [streamRequestsIrq, Bool.or_eq_true] at hcb
    obtain ⟨fuel, rfl⟩ : ∃ f, fuel = f + 1 := ⟨fuel - 1, by omega⟩
    obtain ⟨s1, hstep, hcb1⟩ := step_ok_of_wellFormed L P cmdbuf header s hpkt
      (fun h => hcb (Or.inl h))
    have hlt : processed < size := by omega
    have hadv : u32 (processed +
        (header + u32 (P.NumWords (cmdbuf header)) + 1 - header) * 4) =
        processed + (u32 (P.NumWords (cmdbuf header)) + 1) * 4 := by
      have e : header + u32 (P.NumWords (cmdbuf header)) + 1 - header =
          u32 (P.NumWords (cmdbuf header)) + 1 := by omega
      rw [e]
      unfold u32
      apply Nat.mod_eq_of_lt
      have : processed + (P.NumWords (cmdbuf header) % 2 ^ 32 + 1) * 4 ≤ size := by
        unfold u32 at hfit; omega
      omega
    have hrest1 : wellFormedStream P cmdbuf n (header + u32 (P.NumWords (cmdbuf header)) + 1)
        (size - (processed + (u32 (P.NumWords (cmdbuf header)) + 1) * 4)) = true := by
      rw [← hrest]; congr 1; omega
    obtain ⟨s2, h2⟩ := ih fuel (header + u32 (P.NumWords (cmdbuf header)) + 1)
      (processed + (u32 (P.NumWords (cmdbuf header)) + 1) * 4) s1 (by omega) (by omega) hrest1
      (fun h => hcb1.trans (hcb (Or.inr h)))
    refine ⟨s2, ?_⟩
    rw [processLoop]
    simp only [hlt, if_true, hstep, hadv]
    exact h2

/-- C1 (as amended): for every well-formed command stream of `n` packets (each
of type 3 with a recognized opcode and valid `EventWriteEop` selectors, sizes
`(count + 1) * 4` adding up to `size_in_bytes`), with a callback registered if
some packet selects `IrqWhenWriteConfirm`, `ProcessCmdList` given fuel for `n`
iterations returns normally with `processed_cmd_size = size_in_bytes`; and every
iteration that does not fault advances the cursor by `(count + 1) * 4` bytes. -/
theorem ProcessCmdList_wellFormed_consumes_exactly (L : RegsLayout) (P : PM4Cmds)
    (cmdbuf : Nat → Nat) (size_in_bytes n fuel : Nat) (s : State)
    (hsize : size_in_bytes < 2 ^ 32)
    (hwf : wellFormedStream P cmdbuf n 0 size_in_bytes = true)
    (hcb : streamRequestsIrq P cmdbuf n 0 = true → s.eop_callback = true)
    (hfuel : n ≤ fuel) :
    (∃ s1, ProcessCmdList L P fuel cmdbuf size_in_bytes s = .done s1 size_in_bytes) ∧
    (∀ (header : Nat) (t t1 : State) (next : Nat),
      step L P cmdbuf header t = .next t1 next →
      (next - header) * 4 = (u32 (P.NumWords (cmdbuf header)) + 1) * 4) := by
  constructor
  · exact processLoop_wellFormed L P cmdbuf size_in_bytes hsize n fuel 0 0 s hfuel
      (Nat.zero_le _) hwf hcb
  · intro header t t1 next h
    rw [step_next_header h]
    congr 1
    omega

/-- C1, witness: a stream of a `SetContextReg` packet and an `EventWriteEop`
packet that selects `IrqWhenWriteConfirm`, with a callback registered. -/
theorem ProcessCmdList_wellFormed_consumes_exactly_witness :
    wellFormedStream samplePM4
      (bufferOf [sampleHeader 0x69 4, 5, 0xAA, 0xBB, 0xCC,
        sampleHeader 0x47 5, 0, 0x100, sampleDataControl 0 2 1, 7, 0]) 2 0 44 = true ∧
    streamRequestsIrq samplePM4
      (bufferOf [sampleHeader 0x69 4, 5, 0xAA, 0xBB, 0xCC,
        sampleHeader 0x47 5, 0, 0x100, sampleDataControl 0 2 1, 7, 0]) 2 0 = true ∧
    ∃ s1, ProcessCmdList sampleLayout samplePM4 2
        (bufferOf [sampleHeader 0x69 4, 5, 0xAA, 0xBB, 0xCC,
          sampleHeader 0x47 5, 0, 0x100, sampleDataControl 0 2 1, 7, 0]) 44
        (zeroState true) = .done s1 44 :=
  ⟨by decide, by decide,
    (ProcessCmdList_wellFormed_consumes_exactly sampleLayout samplePM4 _ 44 2 2 (zeroState true)
      (by decide) (by decide) (fun _ => rfl) (Nat.le_refl 2)).1⟩

/-- C1, counterexample to the claim as written: a well-formed stream of one
`EventWriteEop` packet with `Data32Low` and `IrqWhenWriteConfirm` does not finish
when no callback is registered (it faults). -/
theorem ProcessCmdList_wellFormed_may_fault :
    ¬ ∀ (L : RegsLayout) (P : PM4Cmds) (cmdbuf : Nat → Nat) (size_in_bytes n fuel : Nat)
        (s : State), size_in_bytes < 2 ^ 32 →
        wellFormedStream P cmdbuf n 0 size_in_bytes = true → n ≤ fuel →
        ∃ s1, ProcessCmdList L P fuel cmdbuf size_in_bytes s = .done s1 size_in_bytes := by
  intro h
  obtain ⟨s1, h1⟩ := h sampleLayout samplePM4
    (bufferOf [sampleHeader 0x47 5, 0, 0x100, sampleDataControl 0 2 1, 7, 0]) 24 1 1
    (zeroState false) (by decide) (by decide) (Nat.le_refl 1)
  have h2 : (ProcessCmdList sampleLayout samplePM4 1
      (bufferOf [sampleHeader 0x47 5, 0, 0x100, sampleDataControl 0 2 1, 7, 0]) 24
      (zeroState false)).fault? = some .MissingInterruptSink := by decide
  rw [h1] at h2
  cases h2

/-- The loop stops as soon as `processed_cmd_size` has reached `size_in_bytes`. -/
theorem processLoop_exit (L : RegsLayout) (P : PM4Cmds) (cmdbuf : Nat → Nat)
    (size fuel header processed : Nat) (s : State) (h : ¬ processed < size) :
    processLoop L P cmdbuf size fuel header processed s = .done s processed := by
  cases fuel <;> simp [processLoop, h]

/-- A stream whose first packet reaches `size_in_bytes`: one iteration, then the
loop ends. -/
theorem ProcessCmdList_single_packet (L : RegsLayout) (P : PM4Cmds) (cmdbuf : Nat → Nat)
    (size fuel next : Nat) (s s1 : State) (hpos : 0 < size)
    (hstep : step L P cmdbuf 0 s = .next s1 next) (hend : size ≤ u32 (next * 4)) :
    ProcessCmdList L P (fuel + 1) cmdbuf size s = .done s1 (u32 (next * 4)) := by
  unfold ProcessCmdList
  rw [processLoop]
  simp only [hpos, if_true, hstep, Nat.sub_zero, Nat.zero_add]
  exact processLoop_exit L P cmdbuf size fuel next _ s1 (by omega)

/-- One iteration on a type-3 packet whose handler succeeds. -/
theorem step_of_execOpcode_ok (L : RegsLayout) (P : PM4Cmds) (cmdbuf : Nat → Nat)
    (header : Nat) (s s1 : State) (htype : u32 (P.type (cmdbuf header)) = 3)
    (h : execOpcode L P cmdbuf header (P.opcode (cmdbuf header))
      (u32 (P.NumWords (cmdbuf header))) s = .ok s1) :
    step L P cmdbuf header s = .next s1 (header + u32 (P.NumWords (cmdbuf header)) + 1) := by
  unfold step
  simp only [htype, if_true, h]

/-- One iteration on a type-3 packet whose handler faults. -/
theorem step_of_execOpcode_fault (L : RegsLayout) (P : PM4Cmds) (cmdbuf : Nat → Nat)
    (header : Nat) (s s1 : State) (f : Fault) (htype : u32 (P.type (cmdbuf header)) = 3)
    (h : execOpcode L P cmdbuf header (P.opcode (cmdbuf header))
      (u32 (P.NumWords (cmdbuf header))) s = .fault f s1) :
    step L P cmdbuf header s = .fault f s1 := by
  unfold step
  simp only [htype, if_true, h]

/-- The handler of a register-block-write opcode is the `memcpy` of `count - 1`
words from `header + 2` to `reg_array[B + reg_offset]`. -/
theorem execOpcode_setReg (L : RegsLayout) (P : PM4Cmds) (cmdbuf : Nat → Nat)
    (header count B : Nat) (op : PM4ItOpcode) (s : State) (hbase : regionBase L op = some B) :
    execOpcode L P cmdbuf header op count s =
      .ok { s with regs := memcpyWords s.regs (B + P.reg_offset (packetAt cmdbuf header))
                    cmdbuf (header + 2) (u32 (count + 2 ^ 32 - 1)) } := by
  cases op <;> simp only [regionBase, Option.some.injEq, reduceCtorEq] at hbase <;>
    subst hbase <;> rfl

/-- C2: for each register-block-write opcode with region base `B`, a stream of
the single packet (type 3, `count ≥ 1`, relative offset `k = reg_offset`,
`n = count - 1` data words after the descriptor word, range inside the register
array) is processed to the end, after which `reg_array[B + k + i]` holds data
word `i` for every `i < n` and every other register location is unchanged. -/
theorem SetReg_single_packet_writes_block (L : RegsLayout) (P : PM4Cmds) (cmdbuf : Nat → Nat)
    (fuel B : Nat) (s : State)
    (hfuel : 1 ≤ fuel)
    (htype : u32 (P.type (cmdbuf 0)) = 3)
    (hbase : regionBase L (P.opcode (cmdbuf 0)) = some B)
    (hcount : 1 ≤ u32 (P.NumWords (cmdbuf 0)))
    (hsize : (u32 (P.NumWords (cmdbuf 0)) + 1) * 4 < 2 ^ 32)
    (_hfits : B + P.reg_offset (packetAt cmdbuf 0) + (u32 (P.NumWords (cmdbuf 0)) - 1) ≤
      L.NumRegs) :
    ∃ s1, ProcessCmdList L P fuel cmdbuf ((u32 (P.NumWords (cmdbuf 0)) + 1) * 4) s =
        .done s1 ((u32 (P.NumWords (cmdbuf 0)) + 1) * 4) ∧
      (∀ i, i < u32 (P.NumWords (cmdbuf 0)) - 1 →
        s1.regs (B + P.reg_offset (packetAt cmdbuf 0) + i) = cmdbuf (2 + i)) ∧
      (∀ j, (j < B + P.reg_offset (packetAt cmdbuf 0) ∨
          B + P.reg_offset (packetAt cmdbuf 0) + (u32 (P.NumWords (cmdbuf 0)) - 1) ≤ j) →
        s1.regs j = s.regs j) := by
  obtain ⟨fuel, rfl⟩ : ∃ f, fuel = f + 1 := ⟨fuel - 1, by omega⟩
  have hn : u32 (u32 (P.NumWords (cmdbuf 0)) + 2 ^ 32 - 1) = u32 (P.NumWords (cmdbuf 0)) - 1 := by
    unfold u32 at hcount hsize ⊢
    omega
  have hstep := step_of_execOpcode_ok L P cmdbuf 0 s _ htype
    (execOpcode_setReg L P cmdbuf 0 (u32 (P.NumWords (cmdbuf 0))) B _ s hbase)
  have hu : u32 ((0 + u32 (P.NumWords (cmdbuf 0)) + 1) * 4) =
      (u32 (P.NumWords (cmdbuf 0)) + 1) * 4 := by
    rw [Nat.zero_add]
    exact Nat.mod_eq_of_lt hsize
  have hrun := ProcessCmdList_single_packet L P cmdbuf ((u32 (P.NumWords (cmdbuf 0)) + 1) * 4)
    fuel _ s _ (by omega) hstep (by rw [hu])
  rw [hu] at hrun
  refine ⟨_, hrun, ?_, ?_⟩
  · intro i hi
    simp only [memcpyWords, hn]
    rw [if_pos (by omega)]
    have e : 0 + 2 + (B + P.reg_offset (packetAt cmdbuf 0) + i -
        (B + P.reg_offset (packetAt cmdbuf 0))) = 2 + i := by omega
    rw [e]
  · intro j hj
    simp only [memcpyWords, hn]
    rw [if_neg (by omega)]

/-- C2, witness: `SetContextReg` with offset 5 and payload `[0xAA, 0xBB, 0xCC]`,
20 bytes; context offsets 5, 6, 7 then hold `0xAA`, `0xBB`, `0xCC`. -/
theorem SetReg_single_packet_writes_block_witness :
    ∃ s1, ProcessCmdList sampleLayout samplePM4 1
        (bufferOf [sampleHeader 0x69 4, 5, 0xAA, 0xBB, 0xCC]) 20 (zeroState false) =
        .done s1 20 ∧
      s1.regs (sampleLayout.ContextRegWordOffset + 5) = 0xAA ∧
      s1.regs (sampleLayout.ContextRegWordOffset + 6) = 0xBB ∧
      s1.regs (sampleLayout.ContextRegWordOffset + 7) = 0xCC := by
  obtain ⟨s1, h1, h2, _⟩ := SetReg_single_packet_writes_block sampleLayout samplePM4
    (bufferOf [sampleHeader 0x69 4, 5, 0xAA, 0xBB, 0xCC]) 1 sampleLayout.ContextRegWordOffset
    (zeroState false) (Nat.le_refl 1) (by decide) (by decide) (by decide) (by decide)
    (by decide)
  exact ⟨s1, h1, h2 0 (by decide), h2 1 (by decide), h2 2 (by decide)⟩

/-- A 32-bit store is read back as the stored value, truncated to 32 bits. -/
theorem load32_store32 (mem : Nat → Nat) (addr val : Nat) :
    load32 (store32 mem addr val) addr = val % 2 ^ 32 := by
  simp [load32, loadBytes, store32, Nat.add_assoc]
  omega

/-- A 64-bit store is read back as the stored value, truncated to 64 bits. -/
theorem load64_store64 (mem : Nat → Nat) (addr val : Nat) :
    load64 (store64 mem addr val) addr = val % 2 ^ 64 := by
  simp [load64, loadBytes, store64, Nat.add_assoc]
  omega

/-- A 32-bit store leaves every byte outside `[addr, addr + 4)` as it was. -/
theorem store32_frame (mem : Nat → Nat) (addr val a : Nat) (h : a < addr ∨ addr + 4 ≤ a) :
    store32 mem addr val a = mem a := by
  unfold store32
  rw [if_neg (by omega)]

/-- A 64-bit store leaves every byte outside `[addr, addr + 8)` as it was. -/
theorem store64_frame (mem : Nat → Nat) (addr val a : Nat) (h : a < addr ∨ addr + 8 ≤ a) :
    store64 mem addr val a = mem a := by
  unfold store64
  rw [if_neg (by omega)]

/-- One iteration on an `EventWriteEop` packet is its handler, followed by the
advance of the cursor when the handler does not fault. -/
theorem step_eop (L : RegsLayout) (P : PM4Cmds) (cmdbuf : Nat → Nat) (header : Nat) (s : State)
    (htype : u32 (P.type (cmdbuf header)) = 3)
    (hop : P.opcode (cmdbuf header) = .EventWriteEop) :
    step L P cmdbuf header s =
      match handleEventWriteEop P (packetAt cmdbuf header) s with
      | .ok s1 => .next s1 (header + u32 (P.NumWords (cmdbuf header)) + 1)
      | .fault f s1 => .fault f s1 := by
  unfold step
  simp only [htype, if_true, hop, execOpcode]

/-- The memory after an `EventWriteEop` packet with `Data32Low`, whatever the
interrupt switch does. -/
theorem step_eop_mem32 (L : RegsLayout) (P : PM4Cmds) (cmdbuf : Nat → Nat) (header : Nat)
    (s : State) (htype : u32 (P.type (cmdbuf header)) = 3)
    (hop : P.opcode (cmdbuf header) = .EventWriteEop)
    (hds : P.data_sel (packetAt cmdbuf header) = .Data32Low) :
    (step L P cmdbuf header s).state.mem =
      store32 s.mem (P.Address (packetAt cmdbuf header)) (P.DataDWord (packetAt cmdbuf header)) := by
  rw [step_eop L P cmdbuf header s htype hop]
  simp only [handleEventWriteEop, eopWriteBack, hds, eopInterrupt]
  cases P.int_sel (packetAt cmdbuf header) with
  | None => rfl
  | Other r => rfl
  | IrqWhenWriteConfirm => cases s.eop_callback <;> rfl

/-- The memory after an `EventWriteEop` packet with `Data64`, whatever the
interrupt switch does. -/
theorem step_eop_mem64 (L : RegsLayout) (P : PM4Cmds) (cmdbuf : Nat → Nat) (header : Nat)
    (s : State) (htype : u32 (P.type (cmdbuf header)) = 3)
    (hop : P.opcode (cmdbuf header) = .EventWriteEop)
    (hds : P.data_sel (packetAt cmdbuf header) = .Data64) :
    (step L P cmdbuf header s).state.mem =
      store64 s.mem (P.Address (packetAt cmdbuf header)) (P.DataQWord (packetAt cmdbuf header)) := by
  rw [step_eop L P cmdbuf header s htype hop]
  simp only [handleEventWriteEop, eopWriteBack, hds, eopInterrupt]
  cases P.int_sel (packetAt cmdbuf header) with
  | None => rfl
  | Other r => rfl
  | IrqWhenWriteConfirm => cases s.eop_callback <;> rfl

/-- C3: handling an `EventWriteEop` packet with target address `A`: with
`Data32Low` the four bytes at `A` hold the packet's 32-bit data value and every
byte outside `[A, A + 4)` (the bytes at `A + 4` included) is unchanged; with
`Data64` the eight bytes at `A` hold the packet's 64-bit data value and every
byte outside `[A, A + 8)` is unchanged. -/
theorem EventWriteEop_writes_exactly (L : RegsLayout) (P : PM4Cmds) (cmdbuf : Nat → Nat)
    (header : Nat) (s : State)
    (htype : u32 (P.type (cmdbuf header)) = 3)
    (hop : P.opcode (cmdbuf header) = .EventWriteEop) :
    (P.data_sel (packetAt cmdbuf header) = .Data32Low →
      load32 (step L P cmdbuf header s).state.mem (P.Address (packetAt cmdbuf header)) =
        P.DataDWord (packetAt cmdbuf header) % 2 ^ 32 ∧
      ∀ a, (a < P.Address (packetAt cmdbuf header) ∨
          P.Address (packetAt cmdbuf header) + 4 ≤ a) →
        (step L P cmdbuf header s).state.mem a = s.mem a) ∧
    (P.data_sel (packetAt cmdbuf header) = .Data64 →
      load64 (step L P cmdbuf header s).state.mem (P.Address (packetAt cmdbuf header)) =
        P.DataQWord (packetAt cmdbuf header) % 2 ^ 64 ∧
      ∀ a, (a < P.Address (packetAt cmdbuf header) ∨
          P.Address (packetAt cmdbuf header) + 8 ≤ a) →
        (step L P cmdbuf header s).state.mem a = s.mem a) := by
  constructor
  · intro hds
    rw [step_eop_mem32 L P cmdbuf header s htype hop hds]
    exact ⟨load32_store32 _ _ _, fun a ha => store32_frame _ _ _ a ha⟩
  · intro hds
    rw [step_eop_mem64 L P cmdbuf header s htype hop hds]
    exact ⟨load64_store64 _ _ _, fun a ha => store64_frame _ _ _ a ha⟩

/-- C3, witness: a `Data32Low` packet storing `0xDEADBEEF` at `0x100` leaves the
byte at `0x104` as it was, and a `Data64` packet stores all eight bytes. -/
theorem EventWriteEop_writes_exactly_witness :
    (load32 (step sampleLayout samplePM4
        (bufferOf [sampleHeader 0x47 5, 0, 0x100, sampleDataControl 0 0 1, 0xDEADBEEF, 0x1234])
        0 (zeroState false)).state.mem 0x100 = 0xDEADBEEF ∧
      (step sampleLayout samplePM4
        (bufferOf [sampleHeader 0x47 5, 0, 0x100, sampleDataControl 0 0 1, 0xDEADBEEF, 0x1234])
        0 (zeroState false)).state.mem 0x104 = 0) ∧
    load64 (step sampleLayout samplePM4
        (bufferOf [sampleHeader 0x47 5, 0, 0x100, sampleDataControl 0 0 2, 0xDEADBEEF, 0x1234])
        0 (zeroState false)).state.mem 0x100 = 0x1234DEADBEEF := by
  have h1 := (EventWriteEop_writes_exactly sampleLayout samplePM4
    (bufferOf [sampleHeader 0x47 5, 0, 0x100, sampleDataControl 0 0 1, 0xDEADBEEF, 0x1234])
    0 (zeroState false) (by decide) (by decide)).1 (by decide)
  have h2 := (EventWriteEop_writes_exactly sampleLayout samplePM4
    (bufferOf [sampleHeader 0x47 5, 0, 0x100, sampleDataControl 0 0 2, 0xDEADBEEF, 0x1234])
    0 (zeroState false) (by decide) (by decide)).2 (by decide)
  exact ⟨⟨h1.1, h1.2 0x104 (by decide)⟩, h2.1⟩

/-- Appending a write-back event and a callback event adds one callback call. -/
theorem callbackCount_append_callback (trace : List Event) (wb : Event) (m : Nat → Nat)
    (h : wb.isEopCallback = false) :
    callbackCount (trace ++ [wb, .EopCallback m]) = callbackCount trace + 1 := by
  have e : Event.isEopCallback (.EopCallback m) = true := rfl
  simp [callbackCount, List.countP_append, List.countP_cons, h, e]

/-- Appending a write-back event adds no callback call. -/
theorem callbackCount_append_store (trace : List Event) (wb : Event)
    (h : wb.isEopCallback = false) :
    callbackCount (trace ++ [wb]) = callbackCount trace := by
  simp [callbackCount, List.countP_append, List.countP_cons, h]

/-- C4: handling an `EventWriteEop` packet with a valid `DataSelect`,
`IrqWhenWriteConfirm` and a registered callback does not fault and appends to the
trace exactly the write-back followed by one callback call; the memory that the
callback sees is the memory after the write-back, which holds the packet's data
at the target address. -/
theorem EventWriteEop_callback_once_after_writeback (L : RegsLayout) (P : PM4Cmds)
    (cmdbuf : Nat → Nat) (header : Nat) (s : State)
    (htype : u32 (P.type (cmdbuf header)) = 3)
    (hop : P.opcode (cmdbuf header) = .EventWriteEop)
    (hds : (P.data_sel (packetAt cmdbuf header)).isValid = true)
    (his : P.int_sel (packetAt cmdbuf header) = .IrqWhenWriteConfirm)
    (hcb : s.eop_callback = true) :
    ∃ s1 wb m, step L P cmdbuf header s =
        .next s1 (header + u32 (P.NumWords (cmdbuf header)) + 1) ∧
      s1.trace = s.trace ++ [wb, .EopCallback m] ∧
      wb.isEopCallback = false ∧
      callbackCount s1.trace = callbackCount s.trace + 1 ∧
      m = s1.mem ∧
      (P.data_sel (packetAt cmdbuf header) = .Data32Low →
        wb = .Store32 (P.Address (packetAt cmdbuf header))
          (P.DataDWord (packetAt cmdbuf header)) ∧
        load32 m (P.Address (packetAt cmdbuf header)) =
          P.DataDWord (packetAt cmdbuf header) % 2 ^ 32) ∧
      (P.data_sel (packetAt cmdbuf header) = .Data64 →
        wb = .Store64 (P.Address (packetAt cmdbuf header))
          (P.DataQWord (packetAt cmdbuf header)) ∧
        load64 m (P.Address (packetAt cmdbuf header)) =
          P.DataQWord (packetAt cmdbuf header) % 2 ^ 64) := by
  rw [step_eop L P cmdbuf header s htype hop]
  cases hsel : P.data_sel (packetAt cmdbuf header) with
  | Other r => rw [hsel] at hds; cases hds
  | Data32Low =>
    refine ⟨{ s with
        mem := store32 s.mem (P.Address (packetAt cmdbuf header))
          (P.DataDWord (packetAt cmdbuf header))
        trace := s.trace ++ [.Store32 (P.Address (packetAt cmdbuf header))
          (P.DataDWord (packetAt cmdbuf header))] ++
          [.EopCallback (store32 s.mem (P.Address (packetAt cmdbuf header))
            (P.DataDWord (packetAt cmdbuf header)))] },
      .Store32 _ _, _, ?_, List.append_assoc _ _ _, rfl, ?_, rfl, ?_, ?_⟩
    · simp only [handleEventWriteEop, eopWriteBack, hsel, eopInterrupt, his, hcb, if_true]
    · rw [List.append_assoc]
      exact callbackCount_append_callback _ _ _ rfl
    · intro _
      exact ⟨rfl, load32_store32 _ _ _⟩
    · intro h; cases h
  | Data64 =>
    refine ⟨{ s with
        mem := store64 s.mem (P.Address (packetAt cmdbuf header))
          (P.DataQWord (packetAt cmdbuf header))
        trace := s.trace ++ [.Store64 (P.Address (packetAt cmdbuf header))
          (P.DataQWord (packetAt cmdbuf header))] ++
          [.EopCallback (store64 s.mem (P.Address (packetAt cmdbuf header))
            (P.DataQWord (packetAt cmdbuf header)))] },
      .Store64 _ _, _, ?_, List.append_assoc _ _ _, rfl, ?_, rfl, ?_, ?_⟩
    · simp only [handleEventWriteEop, eopWriteBack, hsel, eopInterrupt, his, hcb, if_true]
    · rw [List.append_assoc]
      exact callbackCount_append_callback _ _ _ rfl
    · intro h; cases h
    · intro _
      exact ⟨rfl, load64_store64 _ _ _⟩

/-- C4, witness: a `Data32Low` packet with `IrqWhenWriteConfirm` and a registered
callback. -/
theorem EventWriteEop_callback_once_after_writeback_witness :
    ∃ s1 m, step sampleLayout samplePM4
        (bufferOf [sampleHeader 0x47 5, 0, 0x100, sampleDataControl 0 2 1, 0xDEADBEEF, 0])
        0 (zeroState true) = .next s1 6 ∧
      s1.trace = [.Store32 0x100 0xDEADBEEF, .EopCallback m] ∧
      load32 m 0x100 = 0xDEADBEEF := by
  obtain ⟨s1, wb, m, h1, h2, _, _, _, h6, _⟩ :=
    EventWriteEop_callback_once_after_writeback sampleLayout samplePM4
      (bufferOf [sampleHeader 0x47 5, 0, 0x100, sampleDataControl 0 2 1, 0xDEADBEEF, 0])
      0 (zeroState true) (by decide) (by decide) (by decide) (by decide) rfl
  obtain ⟨h7, h8⟩ := h6 (by decide)
  subst h7
  exact ⟨s1, m, h1, h2, h8⟩

/-- C5: handling an `EventWriteEop` packet with a valid `DataSelect` and
`IrqWhenWriteConfirm` faults with `MissingInterruptSink` exactly when no callback
is registered; otherwise it does not fault and the callback is called once. -/
theorem EventWriteEop_faults_iff_no_callback (L : RegsLayout) (P : PM4Cmds)
    (cmdbuf : Nat → Nat) (header : Nat) (s : State)
    (htype : u32 (P.type (cmdbuf header)) = 3)
    (hop : P.opcode (cmdbuf header) = .EventWriteEop)
    (hds : (P.data_sel (packetAt cmdbuf header)).isValid = true)
    (his : P.int_sel (packetAt cmdbuf header) = .IrqWhenWriteConfirm) :
    ((step L P cmdbuf header s).fault? = some .MissingInterruptSink ↔
      s.eop_callback = false) ∧
    ((step L P cmdbuf header s).fault? = none ↔ s.eop_callback = true) ∧
    ((step L P cmdbuf header s).fault? = none →
      callbackCount (step L P cmdbuf header s).state.trace = callbackCount s.trace + 1) := by
  rw [step_eop L P cmdbuf header s htype hop]
  cases hsel : P.data_sel (packetAt cmdbuf header) with
  | Other r => rw [hsel] at hds; cases hds
  | Data32Low =>
    cases hcb : s.eop_callback <;>
      simp [handleEventWriteEop, eopWriteBack, hsel, eopInterrupt, his, hcb,
        StepResult.fault?, StepResult.state]
    exact callbackCount_append_callback _ _ _ rfl
  | Data64 =>
    cases hcb : s.eop_callback <;>
      simp [handleEventWriteEop, eopWriteBack, hsel, eopInterrupt, his, hcb,
        StepResult.fault?, StepResult.state]
    exact callbackCount_append_callback _ _ _ rfl

/-- C5, witness: the same packet faults without a callback and does not fault
with one. -/
theorem EventWriteEop_faults_iff_no_callback_witness :
    (step sampleLayout samplePM4
        (bufferOf [sampleHeader 0x47 5, 0, 0x100, sampleDataControl 0 2 1, 0xDEADBEEF, 0])
        0 (zeroState false)).fault? = some .MissingInterruptSink ∧
    (step sampleLayout samplePM4
        (bufferOf [sampleHeader 0x47 5, 0, 0x100, sampleDataControl 0 2 1, 0xDEADBEEF, 0])
        0 (zeroState true)).fault? = none :=
  ⟨(EventWriteEop_faults_iff_no_callback sampleLayout samplePM4
      (bufferOf [sampleHeader 0x47 5, 0, 0x100, sampleDataControl 0 2 1, 0xDEADBEEF, 0])
      0 (zeroState false) (by decide) (by decide) (by decide) (by decide)).1.2 rfl,
   (EventWriteEop_faults_iff_no_callback sampleLayout samplePM4
      (bufferOf [sampleHeader 0x47 5, 0, 0x100, sampleDataControl 0 2 1, 0xDEADBEEF, 0])
      0 (zeroState true) (by decide) (by decide) (by decide) (by decide)).2.1.2 rfl⟩

/-- The loop over a well-formed run of `n` packets of `pre` bytes in all, inside
a stream of `size` bytes: after `n` iterations the loop stands at the end of the
run, with `processed_cmd_size = pre`, in a state that does not depend on `size`. -/
theorem processLoop_wellFormed_run (L : RegsLayout) (P : PM4Cmds) (cmdbuf : Nat → Nat) (pre : Nat) :
    ∀ (n header processed : Nat) (s : State), processed ≤ pre →
      wellFormedStream P cmdbuf n header (pre - processed) = true →
      (streamRequestsIrq P cmdbuf n header = true → s.eop_callback = true) →
      ∃ s1, s1.eop_callback = s.eop_callback ∧
        ∀ size fuel, pre ≤ size → size < 2 ^ 32 →
          processLoop L P cmdbuf size (n + fuel) header processed s =
            processLoop L P cmdbuf size fuel (streamEnd P cmdbuf n header) pre s1 := by
  intro n
  induction n with
  | zero =>
    intro header processed s hle hwf _
    simp only [wellFormedStream, decide_eq_true_eq] at hwf
    have hp : processed = pre := by omega
    subst hp
    exact ⟨s, rfl, fun size fuel _ _ => by rw [Nat.zero_add]; rfl⟩
  | succ n ih =>
    intro header processed s hle hwf hcb
    simp only [wellFormedStream, Bool.and_eq_true, decide_eq_true_eq] at hwf
    obtain ⟨⟨hpkt, hfit⟩, hrest⟩ := hwf
    simp only [streamRequestsIrq, Bool.or_eq_true] at hcb
    obtain ⟨s1, hstep, hcb1⟩ := step_ok_of_wellFormed L P cmdbuf header s hpkt
      (fun h => hcb (Or.inl h))
    have hrest1 : wellFormedStream P cmdbuf n (header + u32 (P.NumWords (cmdbuf header)) + 1)
        (pre - (processed + (u32 (P.NumWords (cmdbuf header)) + 1) * 4)) = true := by
      rw [← hrest]; congr 1; omega
    obtain ⟨s2, hcb2, h2⟩ := ih (header + u32 (P.NumWords (cmdbuf header)) + 1)
      (processed + (u32 (P.NumWords (cmdbuf header)) + 1) * 4) s1 (by omega) hrest1
      (fun h => hcb1.trans (hcb (Or.inr h)))
    refine ⟨s2, hcb2.trans hcb1, ?_⟩
    intro size fuel hps hsize
    have hlt : processed < size := by omega
    have hadv : u32 (processed +
        (header + u32 (P.NumWords (cmdbuf header)) + 1 - header) * 4) =
        processed + (u32 (P.NumWords (cmdbuf header)) + 1) * 4 := by
      have e : header + u32 (P.NumWords (cmdbuf header)) + 1 - header =
          u32 (P.NumWords (cmdbuf header)) + 1 := by omega
      rw [e]
      unfold u32
      apply Nat.mod_eq_of_lt
      have : processed + (P.NumWords (cmdbuf header) % 2 ^ 32 + 1) * 4 ≤ pre := by
        unfold u32 at hfit; omega
      omega
    have hf : n + 1 + fuel = (n + fuel) + 1 := by omega
    rw [hf, processLoop]
    simp only [hlt, if_true, hstep, hadv]
    exact h2 size fuel hps hsize

/-- The loop at a type-3 packet whose opcode has no `case`: the fault of the
`default` branch, with the state untouched. -/
theorem processLoop_unknown_opcode (L : RegsLayout) (P : PM4Cmds) (cmdbuf : Nat → Nat)
    (size fuel header processed raw : Nat) (s : State) (hlt : processed < size)
    (htype : u32 (P.type (cmdbuf header)) = 3)
    (hop : P.opcode (cmdbuf header) = .Other raw) :
    processLoop L P cmdbuf size (fuel + 1) header processed s =
      .fault (.UnknownOpcode raw (u32 (P.NumWords (cmdbuf header)))) s := by
  have hstep : step L P cmdbuf header s =
      .fault (.UnknownOpcode raw (u32 (P.NumWords (cmdbuf header)))) s := by
    unfold step
    simp only [htype, if_true, hop, execOpcode]
  rw [processLoop]
  simp only [hlt, if_true, hstep]

/-- C6 (as amended): when the first `n` packets of a stream are well-formed
(`pre` bytes in all), a callback is registered if one of them selects
`IrqWhenWriteConfirm`, and the next packet, still inside the stream, is of type 3
with an opcode outside the recognized set, `ProcessCmdList` stops with
`UnknownOpcode` carrying that opcode and the packet's word count, in exactly the
state that processing the first `n` packets alone ends in. -/
theorem ProcessCmdList_unknown_opcode_stops (L : RegsLayout) (P : PM4Cmds)
    (cmdbuf : Nat → Nat) (pre size_in_bytes n fuel raw : Nat) (s : State)
    (hsize : size_in_bytes < 2 ^ 32) (hpre : pre < size_in_bytes)
    (hwf : wellFormedStream P cmdbuf n 0 pre = true)
    (hcb : streamRequestsIrq P cmdbuf n 0 = true → s.eop_callback = true)
    (htype : u32 (P.type (cmdbuf (streamEnd P cmdbuf n 0))) = 3)
    (hop : P.opcode (cmdbuf (streamEnd P cmdbuf n 0)) = .Other raw)
    (hfuel : n + 1 ≤ fuel) :
    ∃ s1, ProcessCmdList L P fuel cmdbuf size_in_bytes s =
        .fault (.UnknownOpcode raw (u32 (P.NumWords (cmdbuf (streamEnd P cmdbuf n 0))))) s1 ∧
      ProcessCmdList L P fuel cmdbuf pre s = .done s1 pre := by
  obtain ⟨s1, _, h1⟩ := processLoop_wellFormed_run L P cmdbuf pre n 0 0 s (Nat.zero_le _) hwf hcb
  obtain ⟨k, rfl⟩ : ∃ k, fuel = n + (k + 1) := ⟨fuel - n - 1, by omega⟩
  refine ⟨s1, ?_, ?_⟩
  · unfold ProcessCmdList
    rw [h1 size_in_bytes (k + 1) (by omega) hsize]
    exact processLoop_unknown_opcode L P cmdbuf size_in_bytes k _ pre raw s1 hpre htype hop
  · unfold ProcessCmdList
    rw [h1 pre (k + 1) (Nat.le_refl _) (by omega)]
    exact processLoop_exit L P cmdbuf pre (k + 1) _ pre s1 (by omega)

/-- C6, witness: a `SetContextReg` packet followed by a packet with opcode
`0xFF`. -/
theorem ProcessCmdList_unknown_opcode_stops_witness :
    wellFormedStream samplePM4
      (bufferOf [sampleHeader 0x69 4, 5, 0xAA, 0xBB, 0xCC, sampleHeader 0xFF 1, 0]) 1 0 20 =
      true ∧
    ∃ s1, ProcessCmdList sampleLayout samplePM4 2
        (bufferOf [sampleHeader 0x69 4, 5, 0xAA, 0xBB, 0xCC, sampleHeader 0xFF 1, 0]) 28
        (zeroState false) = .fault (.UnknownOpcode 0xFF 1) s1 ∧
      ProcessCmdList sampleLayout samplePM4 2
        (bufferOf [sampleHeader 0x69 4, 5, 0xAA, 0xBB, 0xCC, sampleHeader 0xFF 1, 0]) 20
        (zeroState false) = .done s1 20 :=
  ⟨by decide,
    ProcessCmdList_unknown_opcode_stops sampleLayout samplePM4
      (bufferOf [sampleHeader 0x69 4, 5, 0xAA, 0xBB, 0xCC, sampleHeader 0xFF 1, 0]) 20 28 1 2
      0xFF (zeroState false) (by decide) (by decide) (by decide) (by decide) (by decide)
      (by decide) (by decide)⟩

/-- C6, counterexample to the claim as written: after a well-formed
`EventWriteEop` packet that selects `IrqWhenWriteConfirm`, with no callback
registered, the stream stops at that packet with `MissingInterruptSink`, not at
the following unknown opcode. -/
theorem ProcessCmdList_unknown_opcode_not_reached :
    ¬ ∀ (L : RegsLayout) (P : PM4Cmds) (cmdbuf : Nat → Nat)
        (pre size_in_bytes n fuel raw : Nat) (s : State),
        size_in_bytes < 2 ^ 32 → pre < size_in_bytes →
        wellFormedStream P cmdbuf n 0 pre = true →
        u32 (P.type (cmdbuf (streamEnd P cmdbuf n 0))) = 3 →
        P.opcode (cmdbuf (streamEnd P cmdbuf n 0)) = .Other raw →
        n + 1 ≤ fuel →
        ∃ s1, ProcessCmdList L P fuel cmdbuf size_in_bytes s =
            .fault (.UnknownOpcode raw
              (u32 (P.NumWords (cmdbuf (streamEnd P cmdbuf n 0))))) s1 ∧
          ProcessCmdList L P fuel cmdbuf pre s = .done s1 pre := by
  intro h
  obtain ⟨s1, h1, _⟩ := h sampleLayout samplePM4
    (bufferOf [sampleHeader 0x47 5, 0, 0x100, sampleDataControl 0 2 1, 7, 0,
      sampleHeader 0xFF 1, 0]) 24 32 1 2 0xFF
    (zeroState false) (by decide) (by decide) (by decide) (by decide) (by decide) (by decide)
  have h2 : (ProcessCmdList sampleLayout samplePM4 2
      (bufferOf [sampleHeader 0x47 5, 0, 0x100, sampleDataControl 0 2 1, 7, 0,
        sampleHeader 0xFF 1, 0]) 32
      (zeroState false)).fault? = some .MissingInterruptSink := by decide
  rw [h1] at h2
  cases h2

/-- C7: when the loop is entered (`processed_cmd_size < size_in_bytes`) at a
header whose type is not 3, it aborts with `InvalidPM4Type` reporting the type
value; the state at the fault is the state before the packet, and no later packet
is looked at. -/
theorem processLoop_invalid_type_faults (L : RegsLayout) (P : PM4Cmds) (cmdbuf : Nat → Nat)
    (size_in_bytes fuel header processed : Nat) (s : State)
    (hlt : processed < size_in_bytes)
    (htype : u32 (P.type (cmdbuf header)) ≠ 3) :
    processLoop L P cmdbuf size_in_bytes (fuel + 1) header processed s =
      .fault (.InvalidPM4Type (u32 (P.type (cmdbuf header)))) s := by
  have hstep : step L P cmdbuf header s =
      .fault (.InvalidPM4Type (u32 (P.type (cmdbuf header)))) s := by
    unfold step
    simp only [htype, if_false]
  rw [processLoop]
  simp only [hlt, if_true, hstep]

/-- C7, witness: a type-0 header at the start of an 8-byte stream. -/
theorem processLoop_invalid_type_faults_witness :
    ProcessCmdList sampleLayout samplePM4 1 (bufferOf [0x00001234, 0]) 8 (zeroState false) =
      .fault (.InvalidPM4Type 0) (zeroState false) :=
  processLoop_invalid_type_faults sampleLayout samplePM4 (bufferOf [0x00001234, 0]) 8 0 0 0
    (zeroState false) (by decide) (by decide)

/-- C8: handling an `EventWriteEop` packet whose `DataSelect` is neither
`Data32Low` nor `Data64` faults with the state untouched (no store, no callback
call); with a valid `DataSelect` and an `InterruptSelect` that is neither `None`
nor `IrqWhenWriteConfirm` it faults after the write-back, and the callback is not
called. -/
theorem EventWriteEop_invalid_selectors_fault (L : RegsLayout) (P : PM4Cmds)
    (cmdbuf : Nat → Nat) (header : Nat) (s : State)
    (htype : u32 (P.type (cmdbuf header)) = 3)
    (hop : P.opcode (cmdbuf header) = .EventWriteEop) :
    (∀ r, P.data_sel (packetAt cmdbuf header) = .Other r →
      step L P cmdbuf header s = .fault .InvalidDataSelect s) ∧
    (∀ r, (P.data_sel (packetAt cmdbuf header)).isValid = true →
      P.int_sel (packetAt cmdbuf header) = .Other r →
      (step L P cmdbuf header s).fault? = some .InvalidInterruptSelect ∧
      callbackCount (step L P cmdbuf header s).state.trace = callbackCount s.trace) := by
  rw [step_eop L P cmdbuf header s htype hop]
  constructor
  · intro r hds
    simp only [handleEventWriteEop, eopWriteBack, hds]
  · intro r hds his
    cases hsel : P.data_sel (packetAt cmdbuf header) with
    | Other r => rw [hsel] at hds; cases hds
    | Data32Low =>
      simp only [handleEventWriteEop, eopWriteBack, hsel, eopInterrupt, his,
        StepResult.fault?, StepResult.state, true_and]
      exact callbackCount_append_store _ _ rfl
    | Data64 =>
      simp only [handleEventWriteEop, eopWriteBack, hsel, eopInterrupt, his,
        StepResult.fault?, StepResult.state, true_and]
      exact callbackCount_append_store _ _ rfl

/-- C8, witness: `DataSelect` 5 faults with the state untouched; `DataSelect`
`Data32Low` with `InterruptSelect` 3 faults without a callback call. -/
theorem EventWriteEop_invalid_selectors_fault_witness :
    step sampleLayout samplePM4
        (bufferOf [sampleHeader 0x47 5, 0, 0x100, sampleDataControl 0 2 5, 7, 0])
        0 (zeroState true) = .fault .InvalidDataSelect (zeroState true) ∧
    (step sampleLayout samplePM4
        (bufferOf [sampleHeader 0x47 5, 0, 0x100, sampleDataControl 0 3 1, 7, 0])
        0 (zeroState true)).fault? = some .InvalidInterruptSelect ∧
    callbackCount (step sampleLayout samplePM4
        (bufferOf [sampleHeader 0x47 5, 0, 0x100, sampleDataControl 0 3 1, 7, 0])
        0 (zeroState true)).state.trace = 0 :=
  ⟨(EventWriteEop_invalid_selectors_fault sampleLayout samplePM4
      (bufferOf [sampleHeader 0x47 5, 0, 0x100, sampleDataControl 0 2 5, 7, 0])
      0 (zeroState true) (by decide) (by decide)).1 5 (by decide),
   (EventWriteEop_invalid_selectors_fault sampleLayout samplePM4
      (bufferOf [sampleHeader 0x47 5, 0, 0x100, sampleDataControl 0 3 1, 7, 0])
      0 (zeroState true) (by decide) (by decide)).2 3 (by decide) (by decide)⟩

/-- C9: one iteration on a type-3 packet whose opcode is `Nop`, `DispatchDirect`,
`EventWriteEos`, `DmaData`, `WriteData`, `AcquireMem` or `WaitRegMem` does not
fault and returns the state it was given (registers, memory, trace); only the
cursor moves, by `count + 1` words. -/
theorem inert_opcode_only_advances (L : RegsLayout) (P : PM4Cmds) (cmdbuf : Nat → Nat)
    (header : Nat) (s : State)
    (htype : u32 (P.type (cmdbuf header)) = 3)
    (hop : P.opcode (cmdbuf header) ∈ [PM4ItOpcode.Nop, .DispatchDirect, .EventWriteEos,
      .DmaData, .WriteData, .AcquireMem, .WaitRegMem]) :
    step L P cmdbuf header s = .next s (header + u32 (P.NumWords (cmdbuf header)) + 1) := by
  apply step_of_execOpcode_ok L P cmdbuf header s s htype
  simp only [List.mem_cons, List.mem_singleton, List.not_mem_nil, or_false] at hop
  rcases hop with h | h | h | h | h | h | h <;> rw [h] <;> rfl

/-- C9, witness: a stream of one `Nop` packet with no payload word, 4 bytes,
completes with the state it started from. -/
theorem inert_opcode_only_advances_witness :
    ProcessCmdList sampleLayout samplePM4 1 (bufferOf [sampleHeader 0x10 0]) 4
      (zeroState false) = .done (zeroState false) 4 :=
  ProcessCmdList_single_packet sampleLayout samplePM4 (bufferOf [sampleHeader 0x10 0]) 4 0 1
    (zeroState false) (zeroState false) (by decide)
    (inert_opcode_only_advances sampleLayout samplePM4 (bufferOf [sampleHeader 0x10 0]) 0
      (zeroState false) (by decide) (by decide))
    (by decide)

/-- A bit field reads back the low `bits` bits of the value assigned to it. -/
theorem bitFieldGet_assign (pos bits storage value : Nat) :
    bitFieldGet pos bits (bitFieldAssign pos bits storage value) = value % 2 ^ bits := by
  unfold bitFieldGet bitFieldAssign
  have hlt : storage % 2 ^ pos < 2 ^ pos := Nat.mod_lt _ (Nat.pow_pos (by decide))
  have e : storage / 2 ^ (pos + bits) * 2 ^ (pos + bits) + value % 2 ^ bits * 2 ^ pos +
      storage % 2 ^ pos =
      storage % 2 ^ pos +
        2 ^ pos * (value % 2 ^ bits + 2 ^ bits * (storage / 2 ^ (pos + bits))) := by
    rw [pow_add]; ring
  rw [e, Nat.add_mul_div_left _ _ (Nat.pow_pos (by decide)), Nat.div_eq_of_lt hlt,
    Nat.zero_add, Nat.add_mul_mod_self_left, Nat.mod_mod]

/-- C10 (as amended): one iteration on a `DrawIndex2` packet, for a layout whose
named registers are distinct: `regs.max_index_size = max_size`,
`regs.num_indices = index_count`, `regs.draw_initiator = draw_initiator`, and the
base address reassembled from `regs.index_base_address` is
`((index_base_hi mod 2^w) << 32) | index_base_lo`, `w` being the width of the
`base_addr_hi` bit field; this is `(index_base_hi << 32) | index_base_lo` when
`index_base_hi` fits the bit field. -/
theorem DrawIndex2_stages_draw_state (L : RegsLayout) (P : PM4Cmds) (cmdbuf : Nat → Nat)
    (header : Nat) (s : State)
    (hL : L.Distinct)
    (htype : u32 (P.type (cmdbuf header)) = 3)
    (hop : P.opcode (cmdbuf header) = .DrawIndex2) :
    ∃ s1, step L P cmdbuf header s =
        .next s1 (header + u32 (P.NumWords (cmdbuf header)) + 1) ∧
      s1.regs L.max_index_size = P.max_size (packetAt cmdbuf header) ∧
      s1.regs L.num_indices = P.index_count (packetAt cmdbuf header) ∧
      s1.regs L.draw_initiator = P.draw_initiator (packetAt cmdbuf header) ∧
      indexBaseAddress L s1.regs =
        ((P.index_base_hi (packetAt cmdbuf header) % 2 ^ L.hi_bits) <<< 32) |||
          P.index_base_lo (packetAt cmdbuf header) ∧
      (P.index_base_hi (packetAt cmdbuf header) < 2 ^ L.hi_bits →
        indexBaseAddress L s1.regs =
          (P.index_base_hi (packetAt cmdbuf header) <<< 32) |||
            P.index_base_lo (packetAt cmdbuf header)) := by
  have hstep := step_of_execOpcode_ok L P cmdbuf header s
    { s with regs := handleDrawIndex2 L P (packetAt cmdbuf header) s.regs } htype
    (by rw [hop]; rfl)
  simp only [RegsLayout.Distinct, List.nodup_cons, List.mem_cons, List.mem_singleton,
    List.not_mem_nil, not_or, or_false, not_false_eq_true, List.nodup_nil, and_true] at hL
  obtain ⟨⟨h12, h13, h14, h15, _⟩, ⟨h23, h24, h25, _⟩, ⟨h34, h35, _⟩, ⟨h45, _⟩, _⟩ := hL
  have hlo : handleDrawIndex2 L P (packetAt cmdbuf header) s.regs L.index_base_lo_word =
      P.index_base_lo (packetAt cmdbuf header) := by
    simp [handleDrawIndex2, setReg, h23, h24, h25]
  have hhi : handleDrawIndex2 L P (packetAt cmdbuf header) s.regs L.index_base_hi_word =
      bitFieldAssign L.hi_pos L.hi_bits
        (setReg (setReg s.regs L.max_index_size (P.max_size (packetAt cmdbuf header)))
          L.index_base_lo_word (P.index_base_lo (packetAt cmdbuf header))
          L.index_base_hi_word)
        (P.index_base_hi (packetAt cmdbuf header)) := by
    simp [handleDrawIndex2, setReg, h34, h35]
  have haddr : indexBaseAddress L (handleDrawIndex2 L P (packetAt cmdbuf header) s.regs) =
      ((P.index_base_hi (packetAt cmdbuf header) % 2 ^ L.hi_bits) <<< 32) |||
        P.index_base_lo (packetAt cmdbuf header) := by
    simp only [indexBaseAddress, hlo, hhi, bitFieldGet_assign]
    exact Nat.lor_comm _ _
  refine ⟨_, hstep, ?_, ?_, ?_, haddr, ?_⟩
  · simp [handleDrawIndex2, setReg, h12, h13, h14, h15]
  · simp [handleDrawIndex2, setReg, h45]
  · simp [handleDrawIndex2, setReg]
  · intro hfit
    rw [haddr, Nat.mod_eq_of_lt hfit]

/-- C10, witness: `index_count = 36`, `lo = 0x1000`, `hi = 0` gives
`num_indices = 36` and the base address `0x0000000000001000`. -/
theorem DrawIndex2_stages_draw_state_witness :
    ∃ s1, step sampleLayout samplePM4
        (bufferOf [sampleHeader 0x27 5, 0x10000, 0x1000, 0x0, 36, 2]) 0 (zeroState false) =
        .next s1 6 ∧
      s1.regs sampleLayout.num_indices = 36 ∧
      indexBaseAddress sampleLayout s1.regs = 0x0000000000001000 := by
  obtain ⟨s1, h1, _, h3, _, h5, _⟩ := DrawIndex2_stages_draw_state sampleLayout samplePM4
    (bufferOf [sampleHeader 0x27 5, 0x10000, 0x1000, 0x0, 36, 2]) 0 (zeroState false)
    (by decide) (by decide) (by decide)
  exact ⟨s1, h1, h3, h5⟩

/-- C10, counterexample to the claim as written: with a `base_addr_hi` bit field
of 8 bits, a `DrawIndex2` packet with `index_base_hi = 0x1FF` and
`index_base_lo = 0x1000` leaves the base address `0xFF00001000`, not
`0x1FF00001000`: `Assign` keeps the low 8 bits of the value only. -/
theorem DrawIndex2_base_address_truncated :
    ¬ ∀ (L : RegsLayout) (P : PM4Cmds) (cmdbuf : Nat → Nat) (header : Nat) (s : State),
        L.Distinct →
        u32 (P.type (cmdbuf header)) = 3 →
        P.opcode (cmdbuf header) = .DrawIndex2 →
        indexBaseAddress L (step L P cmdbuf header s).state.regs =
          (P.index_base_hi (packetAt cmdbuf header) <<< 32) |||
            P.index_base_lo (packetAt cmdbuf header) := by
  intro h
  have h1 := h sampleLayout samplePM4
    (bufferOf [sampleHeader 0x27 5, 0x10000, 0x1000, 0x1FF, 36, 2]) 0 (zeroState false)
    (by decide) (by decide) (by decide)
  have h2 : indexBaseAddress sampleLayout (step sampleLayout samplePM4
      (bufferOf [sampleHeader 0x27 5, 0x10000, 0x1000, 0x1FF, 36, 2]) 0
      (zeroState false)).state.regs = 0xFF00001000 := by decide
  rw [h2] at h1
  exact absurd h1 (by decide)

/-- C11 (as amended): one iteration on a `DrawIndex2` or `DrawIndexAuto` packet
does not fault, stages the packet's index count and draw initiator in the
register file, and emits no backend notification: the trace (and host memory) is
left as it was, the call of `rasterizer->DrawIndex()` being commented out. -/
theorem DrawIndex_stages_without_notification (L : RegsLayout) (P : PM4Cmds)
    (cmdbuf : Nat → Nat) (header : Nat) (s : State)
    (hL : L.Distinct)
    (htype : u32 (P.type (cmdbuf header)) = 3)
    (hop : P.opcode (cmdbuf header) = .DrawIndex2 ∨
      P.opcode (cmdbuf header) = .DrawIndexAuto) :
    ∃ s1, step L P cmdbuf header s =
        .next s1 (header + u32 (P.NumWords (cmdbuf header)) + 1) ∧
      s1.trace = s.trace ∧ s1.mem = s.mem ∧
      drawCount s1.trace = drawCount s.trace ∧
      (P.opcode (cmdbuf header) = .DrawIndex2 →
        s1.regs L.num_indices = P.index_count (packetAt cmdbuf header) ∧
        s1.regs L.draw_initiator = P.draw_initiator (packetAt cmdbuf header)) ∧
      (P.opcode (cmdbuf header) = .DrawIndexAuto →
        s1.regs L.num_indices = P.auto_index_count (packetAt cmdbuf header) ∧
        s1.regs L.draw_initiator = P.auto_draw_initiator (packetAt cmdbuf header)) := by
  simp only [RegsLayout.Distinct, List.nodup_cons, List.mem_cons, List.mem_singleton,
    List.not_mem_nil, not_or, or_false, not_false_eq_true, List.nodup_nil, and_true] at hL
  obtain ⟨_, _, _, ⟨h45, _⟩, _⟩ := hL
  rcases hop with hop | hop
  · have hstep := step_of_execOpcode_ok L P cmdbuf header s
      { s with regs := handleDrawIndex2 L P (packetAt cmdbuf header) s.regs } htype
      (by rw [hop]; rfl)
    refine ⟨_, hstep, rfl, rfl, rfl, ?_, ?_⟩
    · intro _
      constructor
      · simp [handleDrawIndex2, setReg, h45]
      · simp [handleDrawIndex2, setReg]
    · intro h; rw [hop] at h; cases h
  · have hstep := step_of_execOpcode_ok L P cmdbuf header s
      { s with regs := handleDrawIndexAuto L P (packetAt cmdbuf header) s.regs } htype
      (by rw [hop]; rfl)
    refine ⟨_, hstep, rfl, rfl, rfl, ?_, ?_⟩
    · intro h; rw [hop] at h; cases h
    · intro _
      constructor
      · simp [handleDrawIndexAuto, setReg, h45]
      · simp [handleDrawIndexAuto, setReg]

/-- C11, witness: the `DrawIndex2` packet of the spec scenario leaves an empty
trace empty. -/
theorem DrawIndex_stages_without_notification_witness :
    ∃ s1, step sampleLayout samplePM4
        (bufferOf [sampleHeader 0x27 5, 0x10000, 0x1000, 0x0, 36, 2]) 0 (zeroState false) =
        .next s1 6 ∧
      s1.trace = [] ∧ s1.regs sampleLayout.num_indices = 36 := by
  obtain ⟨s1, h1, h2, _, _, h5, _⟩ := DrawIndex_stages_without_notification sampleLayout
    samplePM4 (bufferOf [sampleHeader 0x27 5, 0x10000, 0x1000, 0x0, 36, 2]) 0
    (zeroState false) (by decide) (by decide) (Or.inl (by decide))
  exact ⟨s1, h1, h2, (h5 (by decide)).1⟩

/-- C11, counterexample to the claim as written: handling the `DrawIndex2`
packet of the spec scenario adds no draw notification to the trace. -/
theorem DrawIndex_backend_not_notified :
    ¬ ∀ (L : RegsLayout) (P : PM4Cmds) (cmdbuf : Nat → Nat) (header : Nat) (s : State),
        u32 (P.type (cmdbuf header)) = 3 →
        (P.opcode (cmdbuf header) = .DrawIndex2 ∨
          P.opcode (cmdbuf header) = .DrawIndexAuto) →
        drawCount (step L P cmdbuf header s).state.trace = drawCount s.trace + 1 := by
  intro h
  have h1 := h sampleLayout samplePM4
    (bufferOf [sampleHeader 0x27 5, 0x10000, 0x1000, 0x0, 36, 2]) 0 (zeroState false)
    (by decide) (Or.inl (by decide))
  exact absurd h1 (by decide)

/-- C14: one iteration on a `DrawIndexAuto` packet, for a layout whose named
registers are distinct: `regs.num_indices = index_count`,
`regs.draw_initiator = draw_initiator`, and every other register, among them
`max_index_size`, both words of `index_base_address` and `index_buffer_type`,
keeps its value. -/
theorem DrawIndexAuto_stages_count_and_initiator (L : RegsLayout) (P : PM4Cmds)
    (cmdbuf : Nat → Nat) (header : Nat) (s : State)
    (hL : L.Distinct)
    (htype : u32 (P.type (cmdbuf header)) = 3)
    (hop : P.opcode (cmdbuf header) = .DrawIndexAuto) :
    ∃ s1, step L P cmdbuf header s =
        .next s1 (header + u32 (P.NumWords (cmdbuf header)) + 1) ∧
      s1.regs L.num_indices = P.auto_index_count (packetAt cmdbuf header) ∧
      s1.regs L.draw_initiator = P.auto_draw_initiator (packetAt cmdbuf header) ∧
      s1.regs L.max_index_size = s.regs L.max_index_size ∧
      s1.regs L.index_base_lo_word = s.regs L.index_base_lo_word ∧
      s1.regs L.index_base_hi_word = s.regs L.index_base_hi_word ∧
      s1.regs L.index_buffer_type = s.regs L.index_buffer_type ∧
      (∀ j, j ≠ L.num_indices → j ≠ L.draw_initiator → s1.regs j = s.regs j) := by
  have hstep := step_of_execOpcode_ok L P cmdbuf header s
    { s with regs := handleDrawIndexAuto L P (packetAt cmdbuf header) s.regs } htype
    (by rw [hop]; rfl)
  simp only [RegsLayout.Distinct, List.nodup_cons, List.mem_cons, List.mem_singleton,
    List.not_mem_nil, not_or, or_false, not_false_eq_true, List.nodup_nil, and_true] at hL
  obtain ⟨⟨_, _, h14, h15, _⟩, ⟨_, h24, h25, _⟩, ⟨h34, h35, _⟩, ⟨h45, h46⟩, h56⟩ := hL
  have hframe : ∀ j, j ≠ L.num_indices → j ≠ L.draw_initiator →
      handleDrawIndexAuto L P (packetAt cmdbuf header) s.regs j = s.regs j := by
    intro j h1 h2
    simp [handleDrawIndexAuto, setReg, h1, h2]
  refine ⟨_, hstep, ?_, ?_, hframe _ h14 h15, hframe _ h24 h25, hframe _ h34 h35,
    hframe _ (Ne.symm h46) (Ne.symm h56), hframe⟩
  · simp [handleDrawIndexAuto, setReg, h45]
  · simp [handleDrawIndexAuto, setReg]

/-- C14, witness: a `DrawIndexAuto` packet with `index_count = 3` and draw
initiator `2`. -/
theorem DrawIndexAuto_stages_count_and_initiator_witness :
    ∃ s1, step sampleLayout samplePM4 (bufferOf [sampleHeader 0x2D 2, 3, 2]) 0
        (zeroState false) = .next s1 3 ∧
      s1.regs sampleLayout.num_indices = 3 ∧
      s1.regs sampleLayout.draw_initiator = 2 ∧
      s1.regs sampleLayout.max_index_size = 0 := by
  obtain ⟨s1, h1, h2, h3, h4, _⟩ := DrawIndexAuto_stages_count_and_initiator sampleLayout
    samplePM4 (bufferOf [sampleHeader 0x2D 2, 3, 2]) 0 (zeroState false)
    (by decide) (by decide) (by decide)
  exact ⟨s1, h1, h2, h3, h4⟩

/-- C15: one iteration on an `IndexType` packet carrying the raw control word
`r`: `regs.index_buffer_type.raw = r`, as it stands, and every other register
keeps its value. -/
theorem IndexType_copies_raw_word (L : RegsLayout) (P : PM4Cmds) (cmdbuf : Nat → Nat)
    (header : Nat) (s : State)
    (htype : u32 (P.type (cmdbuf header)) = 3)
    (hop : P.opcode (cmdbuf header) = .IndexType) :
    ∃ s1, step L P cmdbuf header s =
        .next s1 (header + u32 (P.NumWords (cmdbuf header)) + 1) ∧
      s1.regs L.index_buffer_type = P.index_type_raw (packetAt cmdbuf header) ∧
      (∀ j, j ≠ L.index_buffer_type → s1.regs j = s.regs j) := by
  have hstep := step_of_execOpcode_ok L P cmdbuf header s
    { s with
      regs := (setReg s.regs L.index_buffer_type (P.index_type_raw (packetAt cmdbuf header))) }
    htype
    (by rw [hop]; rfl)
  refine ⟨_, hstep, ?_, ?_⟩
  · simp [setReg]
  · intro j hj
    simp [setReg, hj]

/-- C15, witness: an `IndexType` packet carrying `0xFFFFFFFF`. -/
theorem IndexType_copies_raw_word_witness :
    ∃ s1, step sampleLayout samplePM4 (bufferOf [sampleHeader 0x2A 1, 0xFFFFFFFF]) 0
        (zeroState false) = .next s1 2 ∧
      s1.regs sampleLayout.index_buffer_type = 0xFFFFFFFF ∧
      s1.regs sampleLayout.num_indices = 0 := by
  obtain ⟨s1, h1, h2, h3⟩ := IndexType_copies_raw_word sampleLayout
    samplePM4 (bufferOf [sampleHeader 0x2A 1, 0xFFFFFFFF]) 0 (zeroState false)
    (by decide) (by decide)
  exact ⟨s1, h1, h2, h3 _ (by decide)⟩

/-- One iteration on a register-block-write packet: the result of the `memcpy`. -/
theorem step_setReg (L : RegsLayout) (P : PM4Cmds) (cmdbuf : Nat → Nat) (header B : Nat)
    (s : State) (htype : u32 (P.type (cmdbuf header)) = 3)
    (hbase : regionBase L (P.opcode (cmdbuf header)) = some B) :
    step L P cmdbuf header s =
      .next { s with regs := memcpyWords s.regs (B + P.reg_offset (packetAt cmdbuf header))
                      cmdbuf (header + 2) (u32 (u32 (P.NumWords (cmdbuf header)) + 2 ^ 32 - 1)) }
        (header + u32 (P.NumWords (cmdbuf header)) + 1) :=
  step_of_execOpcode_ok L P cmdbuf header s _ htype
    (execOpcode_setReg L P cmdbuf header (u32 (P.NumWords (cmdbuf header))) B _ s hbase)

/-- C12 (as amended): one iteration on a register-block-write packet with region
base `B`, relative offset `k = reg_offset` and `n = (count - 1) mod 2^32` changes
register locations in `[B + k, B + k + n)` only; this range is not checked
against the region, so the changed locations are inside a region of `R` words
at `B` when `k + n ≤ R`. -/
theorem SetReg_writes_only_copy_range (L : RegsLayout) (P : PM4Cmds) (cmdbuf : Nat → Nat)
    (header B : Nat) (s : State)
    (htype : u32 (P.type (cmdbuf header)) = 3)
    (hbase : regionBase L (P.opcode (cmdbuf header)) = some B) :
    (∀ j, (step L P cmdbuf header s).state.regs j ≠ s.regs j →
      B + P.reg_offset (packetAt cmdbuf header) ≤ j ∧
      j < B + P.reg_offset (packetAt cmdbuf header) +
        u32 (u32 (P.NumWords (cmdbuf header)) + 2 ^ 32 - 1)) ∧
    (∀ R, P.reg_offset (packetAt cmdbuf header) +
        u32 (u32 (P.NumWords (cmdbuf header)) + 2 ^ 32 - 1) ≤ R →
      ∀ j, (step L P cmdbuf header s).state.regs j ≠ s.regs j → B ≤ j ∧ j < B + R) := by
  rw [step_setReg L P cmdbuf header B s htype hbase]
  have hrange : ∀ j, memcpyWords s.regs (B + P.reg_offset (packetAt cmdbuf header))
      cmdbuf (header + 2) (u32 (u32 (P.NumWords (cmdbuf header)) + 2 ^ 32 - 1)) j ≠ s.regs j →
      B + P.reg_offset (packetAt cmdbuf header) ≤ j ∧
      j < B + P.reg_offset (packetAt cmdbuf header) +
        u32 (u32 (P.NumWords (cmdbuf header)) + 2 ^ 32 - 1) := by
    intro j hj
    by_contra hn
    apply hj
    unfold memcpyWords
    rw [if_neg hn]
  refine ⟨hrange, ?_⟩
  intro R hR j hj
  have := hrange j hj
  omega

/-- C12, witness: `SetContextReg` with offset 5 and three data words changes
location `0xA005`, which is inside a region of `0x400` words at `0xA000`. -/
theorem SetReg_writes_only_copy_range_witness :
    (step sampleLayout samplePM4
        (bufferOf [sampleHeader 0x69 4, 5, 0xAA, 0xBB, 0xCC]) 0 (zeroState false)).state.regs
        0xA005 ≠ (zeroState false).regs 0xA005 ∧
    sampleLayout.ContextRegWordOffset ≤ 0xA005 ∧
    0xA005 < sampleLayout.ContextRegWordOffset + 0x400 :=
  ⟨by decide,
    (SetReg_writes_only_copy_range sampleLayout samplePM4
      (bufferOf [sampleHeader 0x69 4, 5, 0xAA, 0xBB, 0xCC]) 0 sampleLayout.ContextRegWordOffset
      (zeroState false) (by decide) (by decide)).2 0x400 (by decide) 0xA005 (by decide)⟩

/-- C12, counterexample to the claim as written: `SetContextReg` with offset
`0xFFFF` and one data word changes location `0xA000 + 0xFFFF`, which is beyond
the register array and so outside every region of it. -/
theorem SetReg_writes_outside_region :
    ¬ ∀ (L : RegsLayout) (P : PM4Cmds) (cmdbuf : Nat → Nat) (header B R j : Nat) (s : State),
        u32 (P.type (cmdbuf header)) = 3 →
        regionBase L (P.opcode (cmdbuf header)) = some B →
        B + R ≤ L.NumRegs →
        (step L P cmdbuf header s).state.regs j ≠ s.regs j →
        B ≤ j ∧ j < B + R := by
  intro h
  have h1 := h sampleLayout samplePM4 (bufferOf [sampleHeader 0x69 2, 0xFFFF, 0xAA]) 0
    sampleLayout.ContextRegWordOffset 0x3000 (0xA000 + 0xFFFF) (zeroState false)
    (by decide) (by decide) (by decide) (by decide)
  exact absurd h1.2 (by decide)

/-- C20: the register-block-write handler copies `(count - 1) mod 2^32` words,
`count` being the `u32` value of `NumWords()`: with `count = 1` it copies no word
and every register keeps its value; with `count = 0` it copies `2^32 - 1` words,
the words at `header + 2` onwards going to `reg_array[B + reg_offset]` onwards. -/
theorem SetReg_copy_length_is_count_minus_one_u32 (L : RegsLayout) (P : PM4Cmds)
    (cmdbuf : Nat → Nat) (header B : Nat) (s : State)
    (htype : u32 (P.type (cmdbuf header)) = 3)
    (hbase : regionBase L (P.opcode (cmdbuf header)) = some B) :
    step L P cmdbuf header s =
      .next { s with regs := memcpyWords s.regs (B + P.reg_offset (packetAt cmdbuf header))
                      cmdbuf (header + 2) (u32 (u32 (P.NumWords (cmdbuf header)) + 2 ^ 32 - 1)) }
        (header + u32 (P.NumWords (cmdbuf header)) + 1) ∧
    ((u32 (u32 (P.NumWords (cmdbuf header)) + 2 ^ 32 - 1) : Nat) : Int) =
      ((u32 (P.NumWords (cmdbuf header)) : Nat) - 1 : Int) % 2 ^ 32 ∧
    (u32 (P.NumWords (cmdbuf header)) = 1 →
      u32 (u32 (P.NumWords (cmdbuf header)) + 2 ^ 32 - 1) = 0 ∧
      ∀ j, (step L P cmdbuf header s).state.regs j = s.regs j) ∧
    (u32 (P.NumWords (cmdbuf header)) = 0 →
      u32 (u32 (P.NumWords (cmdbuf header)) + 2 ^ 32 - 1) = 2 ^ 32 - 1 ∧
      ∀ i, i < 2 ^ 32 - 1 →
        (step L P cmdbuf header s).state.regs (B + P.reg_offset (packetAt cmdbuf header) + i) =
          cmdbuf (header + 2 + i)) := by
  have hstep := step_setReg L P cmdbuf header B s htype hbase
  refine ⟨hstep, ?_, ?_, ?_⟩
  · have hc : u32 (P.NumWords (cmdbuf header)) < 2 ^ 32 := Nat.mod_lt _ (by decide)
    generalize u32 (P.NumWords (cmdbuf header)) = c at hc ⊢
    unfold u32
    omega
  · intro h1
    rw [hstep, h1]
    refine ⟨by decide, ?_⟩
    intro j
    have h0 : u32 (1 + 2 ^ 32 - 1) = 0 := by decide
    simp only [StepResult.state, memcpyWords, h0]
    rw [if_neg (by omega)]
  · intro h0
    rw [hstep, h0]
    refine ⟨by decide, ?_⟩
    intro i hi
    have hn : u32 (0 + 2 ^ 32 - 1) = 2 ^ 32 - 1 := by decide
    simp only [StepResult.state, memcpyWords, hn]
    rw [if_pos (by omega)]
    have e : header + 2 + (B + P.reg_offset (packetAt cmdbuf header) + i -
        (B + P.reg_offset (packetAt cmdbuf header))) = header + 2 + i := by omega
    rw [e]

/-- C20, witness: a `SetContextReg` packet with `count = 1` changes no register;
one with `count = 0` copies the word at `header + 2` and the word after it. -/
theorem SetReg_copy_length_is_count_minus_one_u32_witness :
    (∀ j, (step sampleLayout samplePM4 (bufferOf [sampleHeader 0x69 1, 5, 0xAA]) 0
        (zeroState false)).state.regs j = 0) ∧
    (step sampleLayout samplePM4 (bufferOf [sampleHeader 0x69 0, 5, 0xAA, 0xBB]) 0
        (zeroState false)).state.regs (sampleLayout.ContextRegWordOffset + 5 + 1) = 0xBB :=
  ⟨((SetReg_copy_length_is_count_minus_one_u32 sampleLayout samplePM4
      (bufferOf [sampleHeader 0x69 1, 5, 0xAA]) 0 sampleLayout.ContextRegWordOffset
      (zeroState false) (by decide) (by decide)).2.2.1 (by decide)).2,
   ((SetReg_copy_length_is_count_minus_one_u32 sampleLayout samplePM4
      (bufferOf [sampleHeader 0x69 0, 5, 0xAA, 0xBB]) 0 sampleLayout.ContextRegWordOffset
      (zeroState false) (by decide) (by decide)).2.2.2 (by decide)).2 1 (by decide)⟩

/-- A memory that reads back a different 32-bit value at `addr` is a different
memory. -/
theorem mem_ne_of_load32_ne (m1 m2 : Nat → Nat) (addr : Nat)
    (h : load32 m1 addr ≠ load32 m2 addr) : m1 ≠ m2 := by
  intro e
  exact h (by rw [e])

/-- A memory that reads back a different 64-bit value at `addr` is a different
memory. -/
theorem mem_ne_of_load64_ne (m1 m2 : Nat → Nat) (addr : Nat)
    (h : load64 m1 addr ≠ load64 m2 addr) : m1 ≠ m2 := by
  intro e
  exact h (by rw [e])

/-- C17: an `EventWriteEop` packet with a valid `DataSelect` whose
`InterruptSelect` is invalid, or is `IrqWhenWriteConfirm` with no callback
registered, faults after the write-back: the memory at the fault is the memory
with the packet's data stored at its address, and it differs from the memory
before the packet whenever the stored data differs from the old contents. -/
theorem EventWriteEop_fault_after_writeback (L : RegsLayout) (P : PM4Cmds)
    (cmdbuf : Nat → Nat) (header : Nat) (s : State)
    (htype : u32 (P.type (cmdbuf header)) = 3)
    (hop : P.opcode (cmdbuf header) = .EventWriteEop)
    (hds : (P.data_sel (packetAt cmdbuf header)).isValid = true)
    (hirq : (∃ r, P.int_sel (packetAt cmdbuf header) = .Other r) ∨
      (P.int_sel (packetAt cmdbuf header) = .IrqWhenWriteConfirm ∧ s.eop_callback = false)) :
    (step L P cmdbuf header s).fault? ≠ none ∧
    (P.data_sel (packetAt cmdbuf header) = .Data32Low →
      (step L P cmdbuf header s).state.mem =
        store32 s.mem (P.Address (packetAt cmdbuf header))
          (P.DataDWord (packetAt cmdbuf header)) ∧
      (load32 s.mem (P.Address (packetAt cmdbuf header)) ≠
          P.DataDWord (packetAt cmdbuf header) % 2 ^ 32 →
        (step L P cmdbuf header s).state.mem ≠ s.mem)) ∧
    (P.data_sel (packetAt cmdbuf header) = .Data64 →
      (step L P cmdbuf header s).state.mem =
        store64 s.mem (P.Address (packetAt cmdbuf header))
          (P.DataQWord (packetAt cmdbuf header)) ∧
      (load64 s.mem (P.Address (packetAt cmdbuf header)) ≠
          P.DataQWord (packetAt cmdbuf header) % 2 ^ 64 →
        (step L P cmdbuf header s).state.mem ≠ s.mem)) := by
  refine ⟨?_, ?_, ?_⟩
  · rw [step_eop L P cmdbuf header s htype hop]
    cases hsel : P.data_sel (packetAt cmdbuf header) with
    | Other r => rw [hsel] at hds; cases hds
    | Data32Low =>
      rcases hirq with ⟨r, hr⟩ | ⟨hi, hcb⟩
      · simp [handleEventWriteEop, eopWriteBack, hsel, eopInterrupt, hr, StepResult.fault?]
      · simp [handleEventWriteEop, eopWriteBack, hsel, eopInterrupt, hi, hcb,
          StepResult.fault?]
    | Data64 =>
      rcases hirq with ⟨r, hr⟩ | ⟨hi, hcb⟩
      · simp [handleEventWriteEop, eopWriteBack, hsel, eopInterrupt, hr, StepResult.fault?]
      · simp [handleEventWriteEop, eopWriteBack, hsel, eopInterrupt, hi, hcb,
          StepResult.fault?]
  · intro hsel
    have hmem := step_eop_mem32 L P cmdbuf header s htype hop hsel
    refine ⟨hmem, ?_⟩
    intro hne
    apply mem_ne_of_load32_ne _ _ (P.Address (packetAt cmdbuf header))
    rw [hmem, load32_store32]
    exact fun e => hne e.symm
  · intro hsel
    have hmem := step_eop_mem64 L P cmdbuf header s htype hop hsel
    refine ⟨hmem, ?_⟩
    intro hne
    apply mem_ne_of_load64_ne _ _ (P.Address (packetAt cmdbuf header))
    rw [hmem, load64_store64]
    exact fun e => hne e.symm

/-- C17, witness: a `Data32Low` packet that selects `IrqWhenWriteConfirm`, with no
callback registered, faults with `0xDEADBEEF` already stored at `0x100`. -/
theorem EventWriteEop_fault_after_writeback_witness :
    (step sampleLayout samplePM4
        (bufferOf [sampleHeader 0x47 5, 0, 0x100, sampleDataControl 0 2 1, 0xDEADBEEF, 0])
        0 (zeroState false)).fault? ≠ none ∧
    (step sampleLayout samplePM4
        (bufferOf [sampleHeader 0x47 5, 0, 0x100, sampleDataControl 0 2 1, 0xDEADBEEF, 0])
        0 (zeroState false)).state.mem ≠ (zeroState false).mem := by
  have h := EventWriteEop_fault_after_writeback sampleLayout samplePM4
    (bufferOf [sampleHeader 0x47 5, 0, 0x100, sampleDataControl 0 2 1, 0xDEADBEEF, 0])
    0 (zeroState false) (by decide) (by decide) (by decide) (Or.inr ⟨by decide, rfl⟩)
  exact ⟨h.1, (h.2.1 (by decide)).2 (by decide)⟩

/-- When no packet size can carry the counter past `2^32`, the counter is four
times the cursor, and every header is fetched below the declared length. -/
theorem headersFetched_lt (L : RegsLayout) (P : PM4Cmds) (cmdbuf : Nat → Nat) (size : Nat)
    (hnowrap : ∀ h, size + (u32 (P.NumWords (cmdbuf h)) + 1) * 4 ≤ 2 ^ 32) :
    ∀ (fuel header : Nat) (s : State),
      ∀ h ∈ headersFetched L P cmdbuf size fuel header (4 * header) s, h * 4 < size := by
  intro fuel
  induction fuel with
  | zero =>
    intro header s h hmem
    simp [headersFetched] at hmem
  | succ fuel ih =>
    intro header s h hmem
    rw [headersFetched] at hmem
    split at hmem
    next hlt =>
      rcases List.mem_cons.mp hmem with rfl | hrest
      · omega
      · cases hstep : step L P cmdbuf header s with
        | fault f t =>
          rw [hstep] at hrest
          simp at hrest
        | next t nh =>
          rw [hstep] at hrest
          simp only at hrest
          have hnh := step_next_header hstep
          subst hnh
          have hw := hnowrap header
          have hadv : u32 (4 * header +
              (header + u32 (P.NumWords (cmdbuf header)) + 1 - header) * 4) =
              4 * (header + u32 (P.NumWords (cmdbuf header)) + 1) := by
            have e : header + u32 (P.NumWords (cmdbuf header)) + 1 - header =
                u32 (P.NumWords (cmdbuf header)) + 1 := by omega
            rw [e]
            generalize u32 (P.NumWords (cmdbuf header)) = c at hw ⊢
            unfold u32
            rw [Nat.mod_eq_of_lt (by omega)]
            omega
          rw [hadv] at hrest
          exact ih _ t h hrest
    next => simp at hmem

/-- C13 (as amended): for a length that is a multiple of 4 and small enough that
no packet size of the buffer can carry the 32-bit counter past `2^32`, every
header is fetched at a word index below `size_in_bytes / 4`.  A register-block
write copies the `(count - 1) mod 2^32` words from `header + 2` onwards into the
register file, whatever the declared length: these are words below
`size_in_bytes / 4` when `count ≥ 1` and the packet ends within the declared
length. -/
theorem reads_within_length_when_packets_fit (L : RegsLayout) (P : PM4Cmds)
    (cmdbuf : Nat → Nat) (size_in_bytes fuel : Nat) (s : State)
    (h4 : size_in_bytes % 4 = 0)
    (hnowrap : ∀ h, size_in_bytes + (u32 (P.NumWords (cmdbuf h)) + 1) * 4 ≤ 2 ^ 32) :
    (∀ h ∈ headersFetched L P cmdbuf size_in_bytes fuel 0 0 s, h < size_in_bytes / 4) ∧
    (∀ (header B : Nat) (t : State), u32 (P.type (cmdbuf header)) = 3 →
      regionBase L (P.opcode (cmdbuf header)) = some B →
      ∀ i, i < u32 (u32 (P.NumWords (cmdbuf header)) + 2 ^ 32 - 1) →
        (step L P cmdbuf header t).state.regs (B + P.reg_offset (packetAt cmdbuf header) + i) =
          cmdbuf (header + 2 + i) ∧
        (1 ≤ u32 (P.NumWords (cmdbuf header)) →
          header + u32 (P.NumWords (cmdbuf header)) + 1 ≤ size_in_bytes / 4 →
          header + 2 + i < size_in_bytes / 4)) := by
  constructor
  · intro h hmem
    have := headersFetched_lt L P cmdbuf size_in_bytes hnowrap fuel 0 s h hmem
    omega
  · intro header B t htype hbase i hi
    constructor
    · rw [step_setReg L P cmdbuf header B t htype hbase]
      simp only [StepResult.state, memcpyWords]
      rw [if_pos (by omega)]
      have e : header + 2 + (B + P.reg_offset (packetAt cmdbuf header) + i -
          (B + P.reg_offset (packetAt cmdbuf header))) = header + 2 + i := by omega
      rw [e]
    · intro hc hend
      have hn : u32 (u32 (P.NumWords (cmdbuf header)) + 2 ^ 32 - 1) =
          u32 (P.NumWords (cmdbuf header)) - 1 := by
        have hlt : u32 (P.NumWords (cmdbuf header)) < 2 ^ 32 := Nat.mod_lt _ (by decide)
        generalize u32 (P.NumWords (cmdbuf header)) = c at hc hlt ⊢
        unfold u32
        omega
      rw [hn] at hi
      omega

/-- C13, witness: in the 20-byte `SetContextReg` stream a header is fetched at
word 0, below word 5. -/
theorem reads_within_length_when_packets_fit_witness :
    0 ∈ headersFetched sampleLayout samplePM4
        (bufferOf [sampleHeader 0x69 4, 5, 0xAA, 0xBB, 0xCC]) 20 2 0 0 (zeroState false) ∧
    0 < 20 / 4 :=
  ⟨by decide,
    (reads_within_length_when_packets_fit sampleLayout samplePM4
      (bufferOf [sampleHeader 0x69 4, 5, 0xAA, 0xBB, 0xCC]) 20 2 (zeroState false) (by decide)
      (by
        intro h
        have hc : u32 (samplePM4.NumWords
            (bufferOf [sampleHeader 0x69 4, 5, 0xAA, 0xBB, 0xCC] h)) < 2 ^ 14 := by
          generalize bufferOf [sampleHeader 0x69 4, 5, 0xAA, 0xBB, 0xCC] h = w
          simp only [samplePM4, u32]
          omega
        omega)).1 0 (by decide)⟩

/-- C13, counterexample to the claim as written: two buffers that agree on every
word below `size_in_bytes / 4 = 2` give different register files, so a word at or
beyond the declared length has been read; the `SetContextReg` packet at word 0
has `count = 4` and its copy reads words 2, 3 and 4. -/
theorem ProcessCmdList_reads_past_declared_length :
    ¬ ∀ (L : RegsLayout) (P : PM4Cmds) (cmdbuf cmdbuf2 : Nat → Nat)
        (size_in_bytes fuel : Nat) (s : State),
        size_in_bytes % 4 = 0 →
        (∀ i, i < size_in_bytes / 4 → cmdbuf i = cmdbuf2 i) →
        ProcessCmdList L P fuel cmdbuf size_in_bytes s =
          ProcessCmdList L P fuel cmdbuf2 size_in_bytes s := by
  intro h
  have h1 := h sampleLayout samplePM4
    (bufferOf [sampleHeader 0x69 4, 5, 0xAA, 0xBB, 0xCC])
    (bufferOf [sampleHeader 0x69 4, 5, 0x11, 0x22, 0x33]) 8 1 (zeroState false) (by decide)
    (by
      intro i hi
      have hi2 : i = 0 ∨ i = 1 := by omega
      rcases hi2 with rfl | rfl <;> rfl)
  have h2 : (ProcessCmdList sampleLayout samplePM4 1
      (bufferOf [sampleHeader 0x69 4, 5, 0xAA, 0xBB, 0xCC]) 8
      (zeroState false)).state.regs (0xA000 + 5) = 0xAA := by decide
  have h3 : (ProcessCmdList sampleLayout samplePM4 1
      (bufferOf [sampleHeader 0x69 4, 5, 0x11, 0x22, 0x33]) 8
      (zeroState false)).state.regs (0xA000 + 5) = 0x11 := by decide
  rw [h1, h3] at h2
  exact absurd h2 (by decide)

end AmdGpu
